import Mathlib

/-!
Tidal / Link: gateway registry and ping responder.

A shallow embedding of

* `ableton/discovery/PeerGateways.hpp`  (the gateway registry and its scan callback),
* `ableton/link/PingResponder.hpp`      (the ping handler and the pong reply),

followed by theorems about the embedding.

Conventions of the embedding.

* Every operation returns the new state together with the list of externally
  visible events it produced (log lines, collaborator calls, sends), in program
  order, and an `escaped` field that holds the exception leaving the operation,
  if any.
* C++ exceptions are classified the way the catch clauses of the sources
  classify them: `std::runtime_error` (and its subclasses) versus everything else.
* The `std::cout << "Pierre n"` trace prints carry no information and are left
  out; the single print of the catch-all handler is kept as an event.
-/

namespace ableton

/-! ## Addresses -/

/-- The type `asio::ip::address` of the external asio library: a tagged value
that is either an IPv4 or an IPv6 address. The payload is the address read as
a number. -/
inductive Address where
  | v4 (bits : Nat)
  | v6 (bits : Nat)
deriving DecidableEq, Repr

namespace Address

/-- The member `address::is_v4()`. -/
def is_v4 : Address → Bool
  | v4 _ => true
  | v6 _ => false

/-- The `operator<` of `asio::ip::address`: the family is compared first
(IPv4 before IPv6), then the value inside the family. -/
def lt : Address → Address → Bool
  | v4 a, v4 b => decide (a < b)
  | v4 _, v6 _ => true
  | v6 _, v4 _ => false
  | v6 a, v6 b => decide (a < b)

end Address

/-- A range of addresses in strictly ascending order: sorted and free of
duplicates, the shape `InterfaceScanner` hands to the callback and the shape of
the key sequence of a `std::map`. -/
def SortedAddrs (l : List Address) : Prop :=
  l.Pairwise (fun a b => Address.lt a b = true)

instance (l : List Address) : Decidable (SortedAddrs l) := by
  unfold SortedAddrs; infer_instance

/-! ## `std::set_difference` -/

/-- Inner loop of `set_difference` while the head `x` of the first range is
fixed: advances through the second range. `k` continues with the tail of the
first range. -/
def setDifferenceFrom (x : Address) (k : List Address → List Address) :
    List Address → List Address
  | [] => x :: k []
  | y :: ys =>
    if Address.lt x y then x :: k (y :: ys)
    else if Address.lt y x then setDifferenceFrom x k ys
    else k ys

/-- The algorithm `std::set_difference(first1, last1, first2, last2, out)`:
```
while (first1 != last1 && first2 != last2)
  if (*first1 < *first2) *out++ = *first1++;
  else if (*first2 < *first1) ++first2;
  else { ++first1; ++first2; }
return std::copy(first1, last1, out);
```
-/
def set_difference : List Address → List Address → List Address
  | [], _ => []
  | x :: xs, ys => setDifferenceFrom x (set_difference xs) ys

/-! ## Node state and responders -/

/-- Modelled from the spec: `SessionId.hpp` is absent; the session identifier is
an opaque token. -/
abbrev SessionId := Nat

/-- Modelled from the spec: `GhostXForm.hpp` is absent; the transform is an
opaque value whose action `hostToGhost` is supplied from outside (see `Wire`).
The two fields only give the value an identity. -/
structure GhostXForm where
  slope : Int
  intercept : Int
deriving DecidableEq, Repr

/-- The node state handed to the gateways: session identifier and transform. -/
structure NodeState where
  sessionId : SessionId
  xform : GhostXForm
deriving DecidableEq, Repr

/-- The state of one `PingResponder` (`PingResponder::Impl`): the bound address
and the two mutable members. `instanceId` is a ghost field that tells object
instances apart: the number of the factory call that built the object. -/
structure PingResponder where
  instanceId : Nat
  address : Address
  mSessionId : SessionId
  mGhostXForm : GhostXForm
deriving DecidableEq, Repr

namespace PingResponder

/-- The member `PingResponder::updateNodeState(sessionId, xform)`. -/
def updateNodeState (r : PingResponder) (sessionId : SessionId) (xform : GhostXForm) :
    PingResponder :=
  { r with mSessionId := sessionId, mGhostXForm := xform }

/-- The node state a responder currently holds. -/
def nodeState (r : PingResponder) : NodeState :=
  ⟨r.mSessionId, r.mGhostXForm⟩

end PingResponder

/-! ## The gateway map -/

/-- The type `GatewayMap = std::map<asio::ip::address, Gateway>`, as its
in-order sequence of entries. -/
abbrev GatewayMap := List (Address × PingResponder)

namespace GatewayMap

/-- The key sequence, in iteration order. -/
def keys (m : GatewayMap) : List Address := m.map Prod.fst

/-- Lookup `std::map::find`. -/
def find : GatewayMap → Address → Option PingResponder
  | [], _ => none
  | (k, g) :: rest, a => if k = a then some g else find rest a

/-- The member `std::map::erase(key)`: removes the entry with that key, if
any, and returns the number of entries removed. -/
def erase : GatewayMap → Address → GatewayMap × Nat
  | [], _ => ([], 0)
  | (k, g) :: rest, a =>
    if k = a then (rest, 1)
    else ((k, g) :: (erase rest a).1, (erase rest a).2)

/-- The member `std::map::emplace(key, value)`: inserts at the key's place in
the order; a key that is already present keeps its old value. -/
def emplace : GatewayMap → Address → PingResponder → GatewayMap
  | [], a, g => [(a, g)]
  | (k, h) :: rest, a, g =>
    if Address.lt a k then (a, g) :: (k, h) :: rest
    else if Address.lt k a then (k, h) :: emplace rest a g
    else (k, h) :: rest

/-- The well-formedness of a `std::map`: keys strictly ascending. -/
def Sorted (m : GatewayMap) : Prop := SortedAddrs (keys m)

instance (m : GatewayMap) : Decidable (Sorted m) := by
  unfold Sorted; infer_instance

end GatewayMap

/-! ## The gateway registry (`PeerGateways` and its `Callback`) -/

/-- The two classes of C++ exception the catch clauses of the sources tell
apart: `std::runtime_error` (with its subclasses), and any other exception. -/
inductive Failure where
  | runtimeError
  | unclassified
deriving DecidableEq, Repr

/-- The template parameter `GatewayFactory`, as far as the registry can observe
it: whether the construction attempted by the `n`-th factory call, with the
given node state on the given address, succeeds (`none`) or throws. The call
number lets the answer change from one scan to the next (an address that is
temporarily unusable). -/
abbrev GatewayFactory := Nat → NodeState → Address → Option Failure

/-- Modelled from the spec: the gateway class and the factory body are absent.
On success the factory "constructs and returns a bound responder": a
`PingResponder` bound to the address and seeded with the node state it was
given (the constructor of `PingResponder` stores both). -/
def makeGateway (n : Nat) (state : NodeState) (addr : Address) : PingResponder :=
  ⟨n, addr, state.sessionId, state.xform⟩

/-- What the registry does that is visible from outside, in program order. -/
inductive Event where
  /-- The call `mGateways.erase(addr)` removed (destroyed) the entry of `addr`. -/
  | erased (addr : Address)
  /-- The log line `info: initializing peer gateway on interface addr`. -/
  | logInfo (addr : Address)
  /-- The call `mFactory(mState, io, addr)`, the `n`-th call of the factory. -/
  | factoryCall (n : Nat) (state : NodeState) (addr : Address)
  /-- The call `mGateways.emplace(addr, g)` after a successful construction. -/
  | emplaced (addr : Address) (g : PingResponder)
  /-- The log line `warning: failed to init gateway on interface addr`. -/
  | logWarning (addr : Address)
  /-- The catch-all handler printed the exception's type name on `std::cout`. -/
  | printedTypeName (addr : Address)
  /-- The call `mGateways.clear()`: every entry of the map is destroyed. The
  order in which `clear` destroys the entries is not fixed by the C++ standard
  and is not recorded. -/
  | cleared
  /-- The call `mpScanner->enable(b)`. -/
  | scannerEnable (b : Bool)
  /-- The call `mpScanner->scan()`. -/
  | scannerScan
deriving DecidableEq, Repr

/-- The registry: the members of `PeerGateways::Callback` (`mState`,
`mGateways`; `mFactory` is passed alongside as a `GatewayFactory`), the ghost
counter `factoryCalls` of factory invocations so far, and the scanner's
enabled flag. -/
structure PeerGateways where
  mState : NodeState
  mGateways : GatewayMap
  factoryCalls : Nat
  scanning : Bool
deriving DecidableEq, Repr

/-- The result of running an operation of the registry. -/
structure Run where
  pg : PeerGateways
  events : List Event
  escaped : Option Failure
deriving DecidableEq, Repr

namespace PeerGateways

/-- The constructor `PeerGateways(rescanPeriod, state, factory, io)`: an empty
map and a scanner that is not yet enabled. -/
def new (state : NodeState) : PeerGateways :=
  ⟨state, [], 0, false⟩

/-- The loop `for (addr : staleAddrs) mGateways.erase(addr);`. -/
def eraseStale : GatewayMap → List Address → GatewayMap × List Event
  | m, [] => (m, [])
  | m, a :: rest =>
    let r := GatewayMap.erase m a
    let ev := if r.2 = 0 then [] else [Event.erased a]
    let r2 := eraseStale r.1 rest
    (r2.1, ev ++ r2.2)

/-- The body of the `try` block for one new address:
```
if (addr.is_v4()) {
  info(mIo.log()) << "initializing peer gateway on interface " << addr;
  auto addv4 = addr.to_v4();
  auto hhhhh = mFactory(mState, util::injectRef(mIo), addv4);
  mGateways.emplace(addr, hhhhh);
}
```
An exception thrown by the factory leaves the block (`escaped`). -/
def tryConstruct (f : GatewayFactory) (pg : PeerGateways) (addr : Address) : Run :=
  if addr.is_v4 then
    let n := pg.factoryCalls
    let called := [Event.logInfo addr, Event.factoryCall n pg.mState addr]
    match f n pg.mState addr with
    | none =>
      let g := makeGateway n pg.mState addr
      ⟨{ pg with mGateways := GatewayMap.emplace pg.mGateways addr g, factoryCalls := n + 1 },
        called ++ [Event.emplaced addr g], none⟩
    | some e => ⟨{ pg with factoryCalls := n + 1 }, called, some e⟩
  else
    ⟨pg, [], none⟩

/-- One iteration of the loop over `newAddrs`: the `try` block with its two
handlers, `catch (const runtime_error& e)` (logs a warning) and `catch (...)`
(prints the type name of the exception). Both handlers return normally. -/
def addNew (f : GatewayFactory) (pg : PeerGateways) (addr : Address) : Run :=
  let r := tryConstruct f pg addr
  match r.escaped with
  | none => r
  | some Failure.runtimeError => ⟨r.pg, r.events ++ [Event.logWarning addr], none⟩
  | some Failure.unclassified => ⟨r.pg, r.events ++ [Event.printedTypeName addr], none⟩

/-- The loop `for (addr : newAddrs) { try { ... } catch ... }`. An exception
that leaves an iteration ends the loop and leaves the callback. -/
def addLoop (f : GatewayFactory) : PeerGateways → List Address → Run
  | pg, [] => ⟨pg, [], none⟩
  | pg, a :: rest =>
    let r := addNew f pg a
    match r.escaped with
    | some e => ⟨r.pg, r.events, some e⟩
    | none =>
      let r2 := addLoop f r.pg rest
      ⟨r2.pg, r.events ++ r2.events, r2.escaped⟩

/-- The scan callback `PeerGateways::Callback::operator()(range)`. -/
def scanCallback (f : GatewayFactory) (pg : PeerGateways) (range : List Address) : Run :=
  let curAddrs := GatewayMap.keys pg.mGateways
  let newAddrs := set_difference range curAddrs
  let staleAddrs := set_difference curAddrs range
  let er := eraseStale pg.mGateways staleAddrs
  let r := addLoop f { pg with mGateways := er.1 } newAddrs
  ⟨r.pg, er.2 ++ r.events, r.escaped⟩

/-- The member `PeerGateways::enable(bEnable)`:
```
mpScannerCallback->mGateways.clear();
mpScanner->enable(bEnable);
```
The clear leaves the map empty, whatever it held.
Modelled from the spec: `InterfaceScanner.hpp` is absent; enabling or disabling
the scanner resumes or halts scanning and does not itself touch the map. -/
def enable (pg : PeerGateways) (bEnable : Bool) : Run :=
  ⟨{ pg with mGateways := [], scanning := bEnable },
    [Event.cleared, Event.scannerEnable bEnable], none⟩

/-- The member `PeerGateways::updateNodeState(state)`: stores the state, then
calls `updateNodeState` of every entry. -/
def updateNodeState (pg : PeerGateways) (state : NodeState) : Run :=
  ⟨{ pg with
      mState := state
      mGateways := pg.mGateways.map
        (fun e => (e.1, e.2.updateNodeState state.sessionId state.xform)) },
    [], none⟩

/-- The member `PeerGateways::repairGateway(gatewayAddr)`:
```
if (mpScannerCallback->mGateways.erase(gatewayAddr))
  mpScanner->scan();
```
The call of the scanner is recorded as an event; the reconciliation the
scanner then performs is a `scanCallback` of its own. -/
def repairGateway (pg : PeerGateways) (gatewayAddr : Address) : Run :=
  let r := GatewayMap.erase pg.mGateways gatewayAddr
  if r.2 ≠ 0 then
    ⟨{ pg with mGateways := r.1 }, [Event.erased gatewayAddr, Event.scannerScan], none⟩
  else
    ⟨{ pg with mGateways := r.1 }, [], none⟩

end PeerGateways

/-- One call made on the registry from outside. -/
inductive Step where
  | enable (b : Bool)
  | updateNodeState (state : NodeState)
  | repairGateway (addr : Address)
  | scan (range : List Address)
deriving DecidableEq, Repr

/-- The registry after one call. -/
def step (f : GatewayFactory) (pg : PeerGateways) : Step → PeerGateways
  | .enable b => (pg.enable b).pg
  | .updateNodeState s => (pg.updateNodeState s).pg
  | .repairGateway a => (pg.repairGateway a).pg
  | .scan range => (pg.scanCallback f range).pg

/-- The registry after a sequence of calls. -/
def runSteps (f : GatewayFactory) (pg : PeerGateways) (steps : List Step) : PeerGateways :=
  steps.foldl (step f) pg

/-- The argument of the last `updateNodeState` in a sequence of calls, or the
given default when there is none. -/
def lastState (s0 : NodeState) : List Step → NodeState
  | [] => s0
  | .updateNodeState s :: rest => lastState s rest
  | _ :: rest => lastState s0 rest

/-! ## Reading a list of events -/

/-- The addresses whose entry was erased, in order. -/
def erasedAddrs (evs : List Event) : List Address :=
  evs.filterMap (fun e => match e with
    | .erased a => some a
    | _ => none)

/-- The addresses the factory was called for, in order. -/
def factoryAddrs (evs : List Event) : List Address :=
  evs.filterMap (fun e => match e with
    | .factoryCall _ _ a => some a
    | _ => none)

/-- The addresses a new responder was emplaced for, in order. -/
def emplacedAddrs (evs : List Event) : List Address :=
  evs.filterMap (fun e => match e with
    | .emplaced a _ => some a
    | _ => none)

/-- The responders that were constructed and emplaced, in order. -/
def emplacedGateways (evs : List Event) : List PingResponder :=
  evs.filterMap (fun e => match e with
    | .emplaced _ g => some g
    | _ => none)

/-- The addresses whose construction failed recoverably: the factory threw a
`runtime_error`, which the first handler logged as a warning. -/
def warnedAddrs (evs : List Event) : List Address :=
  evs.filterMap (fun e => match e with
    | .logWarning a => some a
    | _ => none)

/-- The addresses whose construction failed, whatever the exception was: a
`runtime_error` (first handler) or anything else (catch-all handler). -/
def failedAddrs (evs : List Event) : List Address :=
  evs.filterMap (fun e => match e with
    | .logWarning a => some a
    | .printedTypeName a => some a
    | _ => none)

/-- The address an event is about, if it is about one. -/
def Event.addr : Event → Option Address
  | .erased a => some a
  | .logInfo a => some a
  | .factoryCall _ _ a => some a
  | .emplaced a _ => some a
  | .logWarning a => some a
  | .printedTypeName a => some a
  | .cleared => none
  | .scannerEnable _ => none
  | .scannerScan => none

/-- The number of calls of `mpScanner->scan()` among the events. -/
def scanCalls (evs : List Event) : Nat :=
  evs.count Event.scannerScan

/-! ## The ping responder (`PingResponder::Impl`) -/

/-- One byte of a datagram. -/
abbrev Byte := Nat

/-- The message type tag of a header (`v1::MessageType`). -/
abbrev MessageType := Nat

/-- The parsed message header (`v1::MessageHeader`). -/
structure MessageHeader where
  messageType : MessageType
deriving DecidableEq, Repr

/-- The type `asio::ip::udp::endpoint`: an address and a port. -/
structure Endpoint where
  address : Address
  port : Nat
deriving DecidableEq, Repr

/-- Modelled from the spec: the wire codec and the collaborators of the ping
handler, which are absent (`v1/Messages.hpp`, `PayloadEntries.hpp`,
`Payload.hpp`, `GhostXForm.hpp`). The handler is embedded over any codec:

* `kPing` is the tag `v1::kPing`;
* `parseMessageHeader bytes` is `v1::parseMessageHeader(begin, end)`: the
  header it read and the number of bytes the returned iterator is past `begin`
  (a datagram whose header does not parse is reported through the header, the
  only part of the result the handler inspects);
* `pongHeader` are the bytes `v1::pongMessage` writes in front of the payload;
* `sessionMembership`, `gHostTime`, `hostTime`, `prevGHostTime` are the bytes
  of the payload entries `SessionMembership`, `GHostTime`, `HostTime`,
  `PrevGHostTime`;
* `hostToGhost` is `GhostXForm::hostToGhost`. -/
structure Wire where
  kPing : MessageType
  parseMessageHeader : List Byte → MessageHeader × Nat
  pongHeader : List Byte
  sessionMembership : SessionId → List Byte
  gHostTime : Int → List Byte
  hostTime : Int → List Byte
  prevGHostTime : Int → List Byte
  hostToGhost : GhostXForm → Int → Int

/-- What the responder does that is visible from outside, in program order. -/
inductive IoEvent where
  /-- The log line `debug: Received ping message from sender`. -/
  | logDebugPing (sender : Endpoint)
  /-- The call `mSocket.send(pongBuffer.data(), numBytes, to)` with the first
  `numBytes` bytes of the buffer. -/
  | send (bytes : List Byte) (dest : Endpoint)
  /-- The log line `info: Failed to send pong to sender`. -/
  | logInfoSendFailed (sender : Endpoint)
  /-- The log line `info: Received invalid Message from sender`. -/
  | logInfoInvalid (sender : Endpoint)
  /-- The call `mSocket.receive(...)` made by `listen()`: the receive is armed. -/
  | receive
deriving DecidableEq, Repr

/-- The result of handling one datagram. -/
structure Handled where
  self : PingResponder
  events : List IoEvent
  escaped : Option Failure
deriving DecidableEq, Repr

/-- The messages handed to `mSocket.send`, in order. -/
def sends (evs : List IoEvent) : List (List Byte × Endpoint) :=
  evs.filterMap (fun e => match e with
    | .send bytes dest => some (bytes, dest)
    | _ => none)

/-- The bound `maxPayloadSize =
sizeInByteStream(makePayload(HostTime{}, PrevGHostTime{}))`. -/
def maxPayloadSize (w : Wire) : Nat :=
  (w.hostTime 0 ++ w.prevGHostTime 0).length

/-- The encoded Pong: the bytes `v1::pongMessage(pongPayload, out)` writes for
`pongPayload = makePayload(SessionMembership{mSessionId}, GHostTime{...})`. -/
def pongMessage (w : Wire) (r : PingResponder) (now : Int) : List Byte :=
  w.pongHeader ++
    (w.sessionMembership r.mSessionId ++ w.gHostTime (w.hostToGhost r.mGhostXForm now))

namespace PingResponder

/-- The member `Impl::listen()`: arms one receive. -/
def listen : List IoEvent := [IoEvent.receive]

/-- The member `Impl::reply(begin, end, to)`: encodes the Pong, appends the
ping payload `[begin, end)` behind it, and sends the bytes written. `now` is
the value of `mClock.micros()`; `sendResult` is what the transport does with
the send: it returns (`none`) or throws. The buffer `v1::MessageBuffer` has
the fixed capacity `v1::kMaxMessageSize`, which holds a Pong and a ping payload
within the bound; the capacity is not part of the embedding. -/
def reply (w : Wire) (now : Int) (sendResult : Option Failure) (r : PingResponder)
    (payload : List Byte) (dest : Endpoint) : List IoEvent × Option Failure :=
  let pongMsg := pongMessage w r now
  let buffer := pongMsg ++ payload
  let numBytes := pongMsg.length + payload.length
  ([IoEvent.send (buffer.take numBytes) dest], sendResult)

/-- The handler `Impl::operator()(from, begin, end)`:
```
const auto result = link::v1::parseMessageHeader(begin, end);
const auto& header = result.first;
const auto payloadBegin = result.second;
const auto payloadSize = static_cast<std::size_t>(std::distance(payloadBegin, end));
const auto maxPayloadSize = sizeInByteStream(makePayload(HostTime{}, PrevGHostTime{}));
if (header.messageType == v1::kPing && payloadSize <= maxPayloadSize) {
  debug(mLog) << ...;
  try { reply(std::move(payloadBegin), std::move(end), from); }
  catch (const std::runtime_error& err) { info(mLog) << ...; }
} else {
  info(mLog) << ...;
}
listen();
```
An exception of `reply` that is not a `runtime_error` is not caught: it leaves
the handler before `listen()`. -/
def operatorCall (w : Wire) (now : Int) (sendResult : Option Failure) (r : PingResponder)
    (sender : Endpoint) (bytes : List Byte) : Handled :=
  let result := w.parseMessageHeader bytes
  let header := result.1
  let payload := bytes.drop result.2
  let payloadSize := payload.length
  if header.messageType = w.kPing ∧ payloadSize ≤ maxPayloadSize w then
    let rp := reply w now sendResult r payload sender
    match rp.2 with
    | none => ⟨r, [IoEvent.logDebugPing sender] ++ rp.1 ++ listen, none⟩
    | some Failure.runtimeError =>
      ⟨r, [IoEvent.logDebugPing sender] ++ rp.1 ++ [IoEvent.logInfoSendFailed sender] ++ listen,
        none⟩
    | some Failure.unclassified =>
      ⟨r, [IoEvent.logDebugPing sender] ++ rp.1, some Failure.unclassified⟩
  else
    ⟨r, [IoEvent.logInfoInvalid sender] ++ listen, none⟩

end PingResponder

/-! ## A sample wire format -/

/-- The `width` bytes of `n`, most significant first. -/
def bigEndian (width : Nat) (n : Nat) : List Byte :=
  (List.range width).reverse.map (fun i => n / 256 ^ i % 256)

/-- A payload entry: a 4-byte key, the 4-byte size of the value, the value. -/
def payloadEntry (key : Nat) (value : List Byte) : List Byte :=
  bigEndian 4 key ++ bigEndian 4 value.length ++ value

/-- The eight bytes `_link_v` and 1 that start every message. -/
def protocolHeader : List Byte := [95, 108, 105, 110, 107, 95, 118, 1]

/-- Modelled from the spec: a sample of the absent wire codec, in the shape the
spec gives it: a fixed-size header made of protocol-version bytes and a
message-type tag (1 for Ping, 2 for Pong), and payload entries of key, length
and value. A header that does not parse is reported as type 0 with nothing
consumed. The transform is the affine map with integer slope. -/
def sampleWire : Wire where
  kPing := 1
  parseMessageHeader := fun bytes =>
    if bytes.take 8 = protocolHeader ∧ 9 ≤ bytes.length then (⟨bytes.getD 8 0⟩, 9)
    else (⟨0⟩, 0)
  pongHeader := protocolHeader ++ [2]
  sessionMembership := fun sid => payloadEntry 0x73657373 (bigEndian 8 sid)
  gHostTime := fun t => payloadEntry 0x5f5f6774 (bigEndian 8 (t % 2 ^ 64).toNat)
  hostTime := fun t => payloadEntry 0x5f5f6874 (bigEndian 8 (t % 2 ^ 64).toNat)
  prevGHostTime := fun t => payloadEntry 0x5f706774 (bigEndian 8 (t % 2 ^ 64).toNat)
  hostToGhost := fun x t => x.slope * t + x.intercept

/-- A responder bound to 10.0.0.1 (as number 1). -/
def sampleResponder : PingResponder := ⟨0, .v4 1, 7, ⟨1, 100⟩⟩

/-- The endpoint of a peer. -/
def samplePeer : Endpoint := ⟨.v4 2, 20808⟩

/-- A Ping with a payload of four bytes. -/
def samplePing : List Byte := protocolHeader ++ [1] ++ [222, 173, 190, 239]

/-- A Ping whose payload of 33 bytes is one byte longer than the bound. -/
def sampleOversizedPing : List Byte := protocolHeader ++ [1] ++ List.replicate 33 0

/-- A Pong (type tag 2) as a received datagram. -/
def samplePongDatagram : List Byte := protocolHeader ++ [2]

/-- A datagram that does not start with the protocol header. -/
def sampleGarbage : List Byte := [1, 2, 3]

/-! ## Sample inputs -/

/-- A node state. -/
def sampleState : NodeState := ⟨7, ⟨1, 0⟩⟩

/-- A registry with gateways on 10.0.0.1 and 10.0.0.3 (as numbers 1 and 3),
built by the factory calls 0 and 1. -/
def sampleRegistry : PeerGateways :=
  ⟨sampleState,
    [(.v4 1, makeGateway 0 sampleState (.v4 1)), (.v4 3, makeGateway 1 sampleState (.v4 3))],
    2, true⟩

/-- A scan result: one known IPv4 address, one new IPv4 address, one IPv6
address. -/
def sampleRange : List Address := [.v4 1, .v4 5, .v6 9]

/-- A factory that always succeeds. -/
def factoryOk : GatewayFactory := fun _ _ _ => none

/-- A factory that throws an exception that is not a `runtime_error`. -/
def factoryThrowsOther : GatewayFactory := fun _ _ _ => some Failure.unclassified

/-! ## Facts about the order of addresses -/

theorem Address.lt_irrefl (a : Address) : Address.lt a a = false := by
  cases a <;> simp [Address.lt]

theorem Address.lt_trans {a b c : Address} (hab : Address.lt a b = true)
    (hbc : Address.lt b c = true) : Address.lt a c = true := by
  cases a <;> cases b <;> cases c <;> simp_all [Address.lt] <;> omega

theorem Address.lt_asymm {a b : Address} (hab : Address.lt a b = true) :
    Address.lt b a = false := by
  cases a <;> cases b <;> simp_all [Address.lt] <;> omega

theorem Address.eq_of_not_lt {a b : Address} (hab : Address.lt a b = false)
    (hba : Address.lt b a = false) : a = b := by
  cases a <;> cases b <;> simp_all [Address.lt] <;> omega

theorem Address.ne_of_lt {a b : Address} (hab : Address.lt a b = true) : a ≠ b := by
  intro h
  subst h
  simp [Address.lt_irrefl] at hab

theorem SortedAddrs.nodup {l : List Address} (h : SortedAddrs l) : l.Nodup := by
  unfold SortedAddrs at h
  exact h.imp (fun hab => Address.ne_of_lt hab)

theorem SortedAddrs.tail {a : Address} {l : List Address} (h : SortedAddrs (a :: l)) :
    SortedAddrs l := by
  unfold SortedAddrs at h ⊢
  exact (List.pairwise_cons.1 h).2

theorem SortedAddrs.head_lt {a : Address} {l : List Address} (h : SortedAddrs (a :: l)) :
    ∀ b ∈ l, Address.lt a b = true := by
  unfold SortedAddrs at h
  exact (List.pairwise_cons.1 h).1

theorem SortedAddrs.filter {l : List Address} (p : Address → Bool) (h : SortedAddrs l) :
    SortedAddrs (l.filter p) := by
  unfold SortedAddrs at h ⊢
  exact h.sublist (List.filter_sublist l)

/-! ## `set_difference` computes the difference of two sorted ranges -/

theorem set_difference_nil_right (xs : List Address) : set_difference xs [] = xs := by
  induction xs with
  | nil => rfl
  | cons x xs ih => simp [set_difference, setDifferenceFrom, ih]

/-- The loop of `std::set_difference`, one equation per branch. -/
theorem set_difference_cons_cons (x y : Address) (xs ys : List Address) :
    set_difference (x :: xs) (y :: ys) =
      if Address.lt x y then x :: set_difference xs (y :: ys)
      else if Address.lt y x then set_difference (x :: xs) ys
      else set_difference xs ys := by
  simp [set_difference, setDifferenceFrom]

theorem setDifferenceFrom_eq_filter (x : Address) (xs : List Address)
    (hx : SortedAddrs (x :: xs))
    (ih : ∀ ys, SortedAddrs ys →
      set_difference xs ys = xs.filter (fun a => decide (a ∉ ys))) :
    ∀ ys, SortedAddrs ys →
      setDifferenceFrom x (set_difference xs) ys
        = (x :: xs).filter (fun a => decide (a ∉ ys)) := by
  intro ys
  induction ys with
  | nil =>
    intro _
    simp [setDifferenceFrom, set_difference_nil_right]
  | cons y ys ihy =>
    intro hy
    have hys : SortedAddrs ys := hy.tail
    simp only [setDifferenceFrom]
    by_cases h1 : Address.lt x y = true
    · -- x is below everything left in the second range
      have hxnot : x ∉ y :: ys := by
        intro hmem
        rcases List.mem_cons.1 hmem with h | h
        · exact Address.ne_of_lt h1 h
        · exact Address.ne_of_lt (Address.lt_trans h1 (hy.head_lt x h)) rfl
      rw [if_pos h1, ih (y :: ys) hy, List.filter_cons_of_pos (by simpa using hxnot)]
    · have h1f : Address.lt x y = false := by simpa using h1
      rw [if_neg h1]
      by_cases h2 : Address.lt y x = true
      · -- y is below everything left in the first range
        rw [if_pos h2, ihy hys]
        apply List.filter_congr
        intro a ha
        have hya : y ≠ a := by
          rcases List.mem_cons.1 ha with h | h
          · subst h; exact Address.ne_of_lt h2
          · exact Address.ne_of_lt (Address.lt_trans h2 (hx.head_lt a h))
        have : a ≠ y := fun h => hya h.symm
        simp [List.mem_cons, this]
      · have h2f : Address.lt y x = false := by simpa using h2
        have hxy : x = y := Address.eq_of_not_lt h1f h2f
        subst hxy
        rw [if_neg h2, ih ys hys]
        have hx0 : List.filter (fun a => decide (a ∉ x :: ys)) (x :: xs)
            = List.filter (fun a => decide (a ∉ x :: ys)) xs :=
          List.filter_cons_of_neg (by simp)
        rw [hx0]
        apply List.filter_congr
        intro a ha
        have : a ≠ x := fun h => Address.ne_of_lt (hx.head_lt a ha) h.symm
        simp [List.mem_cons, this]

/-- On strictly ascending ranges `set_difference xs ys` is `xs` without the
elements of `ys`, in the order of `xs`. -/
theorem set_difference_eq_filter :
    ∀ (xs ys : List Address), SortedAddrs xs → SortedAddrs ys →
      set_difference xs ys = xs.filter (fun a => decide (a ∉ ys)) := by
  intro xs
  induction xs with
  | nil => intro ys _ _; rfl
  | cons x xs ih =>
    intro ys hx hy
    simp only [set_difference]
    exact setDifferenceFrom_eq_filter x xs hx (fun ys h => ih ys hx.tail h) ys hy

theorem mem_set_difference {xs ys : List Address} (hx : SortedAddrs xs) (hy : SortedAddrs ys)
    (a : Address) : a ∈ set_difference xs ys ↔ a ∈ xs ∧ a ∉ ys := by
  rw [set_difference_eq_filter xs ys hx hy]
  simp [List.mem_filter]

theorem sorted_set_difference {xs ys : List Address} (hx : SortedAddrs xs)
    (hy : SortedAddrs ys) : SortedAddrs (set_difference xs ys) := by
  rw [set_difference_eq_filter xs ys hx hy]
  exact hx.filter _

/-! ## Facts about the gateway map -/

namespace GatewayMap

theorem sorted_tail {e : Address × PingResponder} {m : GatewayMap} (h : Sorted (e :: m)) :
    Sorted m := by
  unfold Sorted keys at h ⊢
  exact SortedAddrs.tail h

theorem sorted_head_lt {e : Address × PingResponder} {m : GatewayMap} (h : Sorted (e :: m)) :
    ∀ b ∈ keys m, Address.lt e.1 b = true := by
  unfold Sorted keys at h
  exact SortedAddrs.head_lt h

theorem sorted_cons {e : Address × PingResponder} {m : GatewayMap}
    (h1 : ∀ b ∈ keys m, Address.lt e.1 b = true) (h2 : Sorted m) : Sorted (e :: m) := by
  unfold Sorted keys SortedAddrs at h2 ⊢
  simp only [List.map_cons]
  exact List.pairwise_cons.2 ⟨h1, h2⟩

theorem mem_keys_of_mem {e : Address × PingResponder} {m : GatewayMap} (h : e ∈ m) :
    e.1 ∈ keys m :=
  List.mem_map_of_mem Prod.fst h

theorem keys_filter (m : GatewayMap) (p : Address → Bool) :
    keys (m.filter (fun e => p e.1)) = (keys m).filter p := by
  induction m with
  | nil => rfl
  | cons e m ih =>
    unfold keys at ih ⊢
    by_cases h : p e.1 = true
    · simp [List.filter_cons, h, ih]
    · simp [List.filter_cons, h, ih]

theorem sorted_filter (m : GatewayMap) (p : Address → Bool) (h : Sorted m) :
    Sorted (m.filter (fun e => p e.1)) := by
  unfold Sorted at h ⊢
  rw [keys_filter]
  exact h.filter p

theorem find_eq_none_of_not_mem (m : GatewayMap) (a : Address) (h : a ∉ keys m) :
    find m a = none := by
  induction m with
  | nil => rfl
  | cons e m ih =>
    obtain ⟨k, g⟩ := e
    simp only [keys, List.map_cons, List.mem_cons, not_or] at h
    have hk : ¬ k = a := fun hh => h.1 hh.symm
    simp only [find, if_neg hk]
    exact ih h.2

theorem find_isSome_of_mem (m : GatewayMap) (a : Address) (h : a ∈ keys m) :
    (find m a).isSome = true := by
  induction m with
  | nil => simp [keys] at h
  | cons e m ih =>
    obtain ⟨k, g⟩ := e
    by_cases hk : k = a
    · simp [find, hk]
    · simp only [find, if_neg hk]
      apply ih
      simp only [keys, List.map_cons, List.mem_cons] at h
      rcases h with h | h
      · exact absurd h.symm hk
      · exact h

theorem find_filter (m : GatewayMap) (p : Address → Bool) (a : Address) :
    find (m.filter (fun e => p e.1)) a = if p a = true then find m a else none := by
  induction m with
  | nil => simp [find]
  | cons e m ih =>
    obtain ⟨k, g⟩ := e
    by_cases hp : p k = true
    · rw [List.filter_cons_of_pos (by simpa using hp)]
      by_cases hk : k = a
      · subst hk; simp [find, hp]
      · simp only [find, if_neg hk]; exact ih
    · rw [List.filter_cons_of_neg (by simpa using hp)]
      by_cases hk : k = a
      · subst hk
        rw [ih]; simp [hp]
      · simp only [find, if_neg hk]; exact ih

theorem erase_of_not_mem (m : GatewayMap) (a : Address) (h : a ∉ keys m) :
    erase m a = (m, 0) := by
  induction m with
  | nil => rfl
  | cons e m ih =>
    obtain ⟨k, g⟩ := e
    simp only [keys, List.map_cons, List.mem_cons, not_or] at h
    have hk : ¬ k = a := fun hh => h.1 hh.symm
    simp only [erase, if_neg hk]
    rw [ih h.2]

theorem erase_count_of_mem (m : GatewayMap) (a : Address) (h : a ∈ keys m) :
    (erase m a).2 = 1 := by
  induction m with
  | nil => simp [keys] at h
  | cons e m ih =>
    obtain ⟨k, g⟩ := e
    by_cases hk : k = a
    · simp [erase, hk]
    · simp only [erase, if_neg hk]
      apply ih
      simp only [keys, List.map_cons, List.mem_cons] at h
      rcases h with h | h
      · exact absurd h.symm hk
      · exact h

theorem erase_count_eq_zero_iff (m : GatewayMap) (a : Address) :
    (erase m a).2 = 0 ↔ a ∉ keys m := by
  constructor
  · intro h hmem
    rw [erase_count_of_mem m a hmem] at h
    exact absurd h (by decide)
  · intro h
    rw [erase_of_not_mem m a h]

/-- On a well-formed map `erase` removes exactly the entry of the key and
keeps every other entry as it is. -/
theorem erase_eq_filter (m : GatewayMap) (a : Address) (h : Sorted m) :
    (erase m a).1 = m.filter (fun e => decide (e.1 ≠ a)) := by
  induction m with
  | nil => rfl
  | cons e m ih =>
    obtain ⟨k, g⟩ := e
    by_cases hk : k = a
    · subst hk
      simp only [erase, if_true]
      rw [List.filter_cons_of_neg (by simp)]
      symm
      apply List.filter_eq_self.2
      intro e he
      have : Address.lt k e.1 = true := sorted_head_lt h e.1 (mem_keys_of_mem he)
      have hne : k ≠ e.1 := Address.ne_of_lt this
      simpa using fun hh => hne hh.symm
    · simp only [erase, if_neg hk]
      rw [List.filter_cons_of_pos (by simpa using hk), ih (sorted_tail h)]

theorem mem_keys_emplace (m : GatewayMap) (a : Address) (g : PingResponder) (b : Address) :
    b ∈ keys (emplace m a g) ↔ b = a ∨ b ∈ keys m := by
  induction m with
  | nil => simp [emplace, keys]
  | cons e m ih =>
    obtain ⟨k, h⟩ := e
    simp only [emplace]
    by_cases h1 : Address.lt a k = true
    · rw [if_pos h1]; simp [keys]
    · rw [if_neg h1]
      by_cases h2 : Address.lt k a = true
      · rw [if_pos h2]
        simp only [keys, List.map_cons, List.mem_cons] at ih ⊢
        rw [ih]; tauto
      · rw [if_neg h2]
        have hak : a = k :=
          Address.eq_of_not_lt (by simpa using h1) (by simpa using h2)
        subst hak
        simp [keys]

theorem sorted_emplace (m : GatewayMap) (a : Address) (g : PingResponder) (h : Sorted m) :
    Sorted (emplace m a g) := by
  induction m with
  | nil =>
    simp [emplace, Sorted, keys, SortedAddrs]
  | cons e m ih =>
    obtain ⟨k, r⟩ := e
    simp only [emplace]
    by_cases h1 : Address.lt a k = true
    · rw [if_pos h1]
      apply sorted_cons _ h
      intro b hb
      simp only [keys, List.map_cons, List.mem_cons] at hb
      rcases hb with hb | hb
      · subst hb; exact h1
      · exact Address.lt_trans h1 (sorted_head_lt h b hb)
    · rw [if_neg h1]
      by_cases h2 : Address.lt k a = true
      · rw [if_pos h2]
        apply sorted_cons _ (ih (sorted_tail h))
        intro b hb
        rcases (mem_keys_emplace m a g b).1 hb with hb | hb
        · subst hb; exact h2
        · exact sorted_head_lt h b hb
      · rw [if_neg h2]; exact h

theorem mem_emplace (m : GatewayMap) (a : Address) (g : PingResponder)
    (e : Address × PingResponder) (he : e ∈ emplace m a g) : e = (a, g) ∨ e ∈ m := by
  induction m with
  | nil => simpa [emplace] using he
  | cons e0 m ih =>
    obtain ⟨k, r⟩ := e0
    simp only [emplace] at he
    by_cases h1 : Address.lt a k = true
    · rw [if_pos h1] at he
      simpa using he
    · rw [if_neg h1] at he
      by_cases h2 : Address.lt k a = true
      · rw [if_pos h2] at he
        rcases List.mem_cons.1 he with he | he
        · right; rw [he]; exact List.mem_cons_self _ _
        · rcases ih he with h | h
          · left; exact h
          · right; exact List.mem_cons_of_mem _ h
      · rw [if_neg h2] at he
        right; exact he

theorem find_emplace_of_ne (m : GatewayMap) (a : Address) (g : PingResponder) (b : Address)
    (hb : b ≠ a) : find (emplace m a g) b = find m b := by
  have hab : ¬ a = b := fun h => hb h.symm
  induction m with
  | nil => simp [emplace, find, hab]
  | cons e m ih =>
    obtain ⟨k, r⟩ := e
    simp only [emplace]
    by_cases h1 : Address.lt a k = true
    · rw [if_pos h1]
      simp [find, hab]
    · rw [if_neg h1]
      by_cases h2 : Address.lt k a = true
      · rw [if_pos h2]
        by_cases hk : k = b
        · simp [find, hk]
        · simp only [find, if_neg hk]; exact ih
      · rw [if_neg h2]

theorem find_emplace_self (m : GatewayMap) (a : Address) (g : PingResponder)
    (ha : a ∉ keys m) : find (emplace m a g) a = some g := by
  induction m with
  | nil => simp [emplace, find]
  | cons e m ih =>
    obtain ⟨k, r⟩ := e
    simp only [keys, List.map_cons, List.mem_cons, not_or] at ha
    have hk : ¬ k = a := fun hh => ha.1 hh.symm
    simp only [emplace]
    by_cases h1 : Address.lt a k = true
    · rw [if_pos h1]; simp [find]
    · rw [if_neg h1]
      by_cases h2 : Address.lt k a = true
      · rw [if_pos h2]
        simp only [find, if_neg hk]
        exact ih ha.2
      · exact absurd (Address.eq_of_not_lt (by simpa using h1) (by simpa using h2)) ha.1

end GatewayMap

/-! ## The loop that removes the stale addresses -/

namespace PeerGateways

theorem eraseStale_map (m : GatewayMap) (as : List Address) (h : GatewayMap.Sorted m) :
    (eraseStale m as).1 = m.filter (fun e => decide (e.1 ∉ as)) := by
  induction as generalizing m with
  | nil => simp [eraseStale]
  | cons a rest ih =>
    simp only [eraseStale]
    rw [GatewayMap.erase_eq_filter m a h,
      ih _ (GatewayMap.sorted_filter m (fun k => decide (k ≠ a)) h), List.filter_filter]
    apply List.filter_congr
    intro e _
    by_cases h1 : e.1 = a <;> simp [h1]

theorem eraseStale_events (m : GatewayMap) (as : List Address) (h : GatewayMap.Sorted m)
    (hnd : as.Nodup) (hsub : ∀ a ∈ as, a ∈ GatewayMap.keys m) :
    (eraseStale m as).2 = as.map Event.erased := by
  induction as generalizing m with
  | nil => simp [eraseStale]
  | cons a rest ih =>
    have ha : a ∈ GatewayMap.keys m := hsub a (List.mem_cons_self _ _)
    have hcount : ¬ (GatewayMap.erase m a).2 = 0 := by
      rw [GatewayMap.erase_count_of_mem m a ha]; decide
    have hnd2 := List.nodup_cons.1 hnd
    simp only [eraseStale, if_neg hcount, List.map_cons, List.singleton_append]
    congr 1
    apply ih _ _ hnd2.2
    · intro b hb
      rw [GatewayMap.erase_eq_filter m a h, GatewayMap.keys_filter m (fun k => decide (k ≠ a))]
      have hne : b ≠ a := fun hh => hnd2.1 (hh ▸ hb)
      simp [List.mem_filter, hsub b (List.mem_cons_of_mem _ hb), hne]
    · rw [GatewayMap.erase_eq_filter m a h]
      exact GatewayMap.sorted_filter m (fun k => decide (k ≠ a)) h

/-! ## One iteration of the loop over the new addresses -/

/-- The four ways through one iteration. -/
theorem addNew_cases (f : GatewayFactory) (pg : PeerGateways) (a : Address) :
    (a.is_v4 = false ∧ addNew f pg a = ⟨pg, [], none⟩) ∨
    (a.is_v4 = true ∧ f pg.factoryCalls pg.mState a = none ∧
      addNew f pg a =
        ⟨{ pg with
            mGateways := GatewayMap.emplace pg.mGateways a
              (makeGateway pg.factoryCalls pg.mState a)
            factoryCalls := pg.factoryCalls + 1 },
          [Event.logInfo a, Event.factoryCall pg.factoryCalls pg.mState a,
            Event.emplaced a (makeGateway pg.factoryCalls pg.mState a)], none⟩) ∨
    (a.is_v4 = true ∧ f pg.factoryCalls pg.mState a = some Failure.runtimeError ∧
      addNew f pg a =
        ⟨{ pg with factoryCalls := pg.factoryCalls + 1 },
          [Event.logInfo a, Event.factoryCall pg.factoryCalls pg.mState a,
            Event.logWarning a], none⟩) ∨
    (a.is_v4 = true ∧ f pg.factoryCalls pg.mState a = some Failure.unclassified ∧
      addNew f pg a =
        ⟨{ pg with factoryCalls := pg.factoryCalls + 1 },
          [Event.logInfo a, Event.factoryCall pg.factoryCalls pg.mState a,
            Event.printedTypeName a], none⟩) := by
  by_cases hv : a.is_v4 = true
  · rcases hf : f pg.factoryCalls pg.mState a with _ | e
    · right; left
      simp [addNew, tryConstruct, hv, hf]
    · cases e
      · right; right; left
        simp [addNew, tryConstruct, hv, hf]
      · right; right; right
        simp [addNew, tryConstruct, hv, hf]
  · left
    have hv2 : a.is_v4 = false := by simpa using hv
    simp [addNew, tryConstruct, hv2]

theorem addNew_escaped (f : GatewayFactory) (pg : PeerGateways) (a : Address) :
    (addNew f pg a).escaped = none := by
  rcases addNew_cases f pg a with h | h | h | h
  · rw [h.2]
  · rw [h.2.2]
  · rw [h.2.2]
  · rw [h.2.2]

theorem addLoop_cons (f : GatewayFactory) (pg : PeerGateways) (a : Address)
    (rest : List Address) :
    addLoop f pg (a :: rest) =
      ⟨(addLoop f (addNew f pg a).pg rest).pg,
        (addNew f pg a).events ++ (addLoop f (addNew f pg a).pg rest).events,
        (addLoop f (addNew f pg a).pg rest).escaped⟩ := by
  simp only [addLoop]
  rw [addNew_escaped]

theorem addLoop_escaped (f : GatewayFactory) (pg : PeerGateways) (as : List Address) :
    (addLoop f pg as).escaped = none := by
  induction as generalizing pg with
  | nil => rfl
  | cons a rest ih => rw [addLoop_cons]; exact ih _

/-! ### What one iteration leaves behind -/

theorem addNew_mState (f : GatewayFactory) (pg : PeerGateways) (a : Address) :
    (addNew f pg a).pg.mState = pg.mState := by
  rcases addNew_cases f pg a with ⟨_, h⟩ | ⟨_, _, h⟩ | ⟨_, _, h⟩ | ⟨_, _, h⟩ <;> rw [h]

theorem addNew_scanning (f : GatewayFactory) (pg : PeerGateways) (a : Address) :
    (addNew f pg a).pg.scanning = pg.scanning := by
  rcases addNew_cases f pg a with ⟨_, h⟩ | ⟨_, _, h⟩ | ⟨_, _, h⟩ | ⟨_, _, h⟩ <;> rw [h]

theorem addNew_factoryCalls_le (f : GatewayFactory) (pg : PeerGateways) (a : Address) :
    pg.factoryCalls ≤ (addNew f pg a).pg.factoryCalls := by
  rcases addNew_cases f pg a with ⟨_, h⟩ | ⟨_, _, h⟩ | ⟨_, _, h⟩ | ⟨_, _, h⟩ <;> rw [h] <;> simp

theorem addNew_erased (f : GatewayFactory) (pg : PeerGateways) (a : Address) :
    erasedAddrs (addNew f pg a).events = [] := by
  rcases addNew_cases f pg a with ⟨_, h⟩ | ⟨_, _, h⟩ | ⟨_, _, h⟩ | ⟨_, _, h⟩ <;> rw [h] <;>
    simp [erasedAddrs]

theorem addNew_factoryAddrs (f : GatewayFactory) (pg : PeerGateways) (a : Address) :
    factoryAddrs (addNew f pg a).events = if a.is_v4 = true then [a] else [] := by
  rcases addNew_cases f pg a with ⟨hv, h⟩ | ⟨hv, _, h⟩ | ⟨hv, _, h⟩ | ⟨hv, _, h⟩ <;> rw [h] <;>
    simp [factoryAddrs, hv]

theorem addNew_emplaced_sub (f : GatewayFactory) (pg : PeerGateways) (a b : Address)
    (hb : b ∈ emplacedAddrs (addNew f pg a).events) : b = a ∧ a.is_v4 = true := by
  rcases addNew_cases f pg a with ⟨hv, h⟩ | ⟨hv, _, h⟩ | ⟨hv, _, h⟩ | ⟨hv, _, h⟩ <;>
    rw [h] at hb <;> simp [emplacedAddrs] at hb
  exact ⟨hb, hv⟩

theorem addNew_mem_keys (f : GatewayFactory) (pg : PeerGateways) (a b : Address) :
    b ∈ GatewayMap.keys (addNew f pg a).pg.mGateways ↔
      b ∈ GatewayMap.keys pg.mGateways ∨ b ∈ emplacedAddrs (addNew f pg a).events := by
  rcases addNew_cases f pg a with ⟨_, h⟩ | ⟨_, _, h⟩ | ⟨_, _, h⟩ | ⟨_, _, h⟩ <;> rw [h] <;>
    simp [emplacedAddrs, GatewayMap.mem_keys_emplace]
  tauto

theorem addNew_find_of_ne (f : GatewayFactory) (pg : PeerGateways) (a b : Address)
    (hb : b ≠ a) :
    GatewayMap.find (addNew f pg a).pg.mGateways b = GatewayMap.find pg.mGateways b := by
  rcases addNew_cases f pg a with ⟨_, h⟩ | ⟨_, _, h⟩ | ⟨_, _, h⟩ | ⟨_, _, h⟩ <;> rw [h]
  exact GatewayMap.find_emplace_of_ne _ _ _ _ hb

theorem addNew_sorted (f : GatewayFactory) (pg : PeerGateways) (a : Address)
    (hs : GatewayMap.Sorted pg.mGateways) : GatewayMap.Sorted (addNew f pg a).pg.mGateways := by
  rcases addNew_cases f pg a with ⟨_, h⟩ | ⟨_, _, h⟩ | ⟨_, _, h⟩ | ⟨_, _, h⟩ <;> rw [h]
  · exact hs
  · exact GatewayMap.sorted_emplace _ _ _ hs
  · exact hs
  · exact hs

/-- An entry of the map after one iteration is an old entry, or the responder
the factory has just built: for an IPv4 address, seeded with the stored node
state, and numbered by this factory call. -/
theorem addNew_entries (f : GatewayFactory) (pg : PeerGateways) (a : Address)
    (e : Address × PingResponder) (he : e ∈ (addNew f pg a).pg.mGateways) :
    e ∈ pg.mGateways ∨
      (e.1 = a ∧ a.is_v4 = true ∧ e.2 = makeGateway pg.factoryCalls pg.mState a) := by
  rcases addNew_cases f pg a with ⟨_, h⟩ | ⟨hv, _, h⟩ | ⟨_, _, h⟩ | ⟨_, _, h⟩ <;> rw [h] at he
  · left; exact he
  · rcases GatewayMap.mem_emplace _ _ _ _ he with h1 | h1
    · right; rw [h1]; exact ⟨rfl, hv, rfl⟩
    · left; exact h1
  · left; exact he
  · left; exact he

theorem addNew_emplacedGateways (f : GatewayFactory) (pg : PeerGateways) (a : Address)
    (g : PingResponder) (hg : g ∈ emplacedGateways (addNew f pg a).events) :
    g = makeGateway pg.factoryCalls pg.mState a := by
  rcases addNew_cases f pg a with ⟨_, h⟩ | ⟨_, _, h⟩ | ⟨_, _, h⟩ | ⟨_, _, h⟩ <;>
    rw [h] at hg <;> simp [emplacedGateways] at hg
  exact hg

theorem erasedAddrs_append (l1 l2 : List Event) :
    erasedAddrs (l1 ++ l2) = erasedAddrs l1 ++ erasedAddrs l2 := by
  simp [erasedAddrs, List.filterMap_append]

theorem factoryAddrs_append (l1 l2 : List Event) :
    factoryAddrs (l1 ++ l2) = factoryAddrs l1 ++ factoryAddrs l2 := by
  simp [factoryAddrs, List.filterMap_append]

theorem emplacedAddrs_append (l1 l2 : List Event) :
    emplacedAddrs (l1 ++ l2) = emplacedAddrs l1 ++ emplacedAddrs l2 := by
  simp [emplacedAddrs, List.filterMap_append]

theorem emplacedGateways_append (l1 l2 : List Event) :
    emplacedGateways (l1 ++ l2) = emplacedGateways l1 ++ emplacedGateways l2 := by
  simp [emplacedGateways, List.filterMap_append]

theorem warnedAddrs_append (l1 l2 : List Event) :
    warnedAddrs (l1 ++ l2) = warnedAddrs l1 ++ warnedAddrs l2 := by
  simp [warnedAddrs, List.filterMap_append]

theorem projections_map_erased (as : List Address) :
    erasedAddrs (as.map Event.erased) = as ∧ factoryAddrs (as.map Event.erased) = [] ∧
    emplacedAddrs (as.map Event.erased) = [] ∧ failedAddrs (as.map Event.erased) = [] ∧
    emplacedGateways (as.map Event.erased) = [] := by
  induction as with
  | nil => simp [erasedAddrs, factoryAddrs, emplacedAddrs, failedAddrs, emplacedGateways]
  | cons a rest ih =>
    obtain ⟨h1, h2, h3, h4, h5⟩ := ih
    simp only [erasedAddrs, factoryAddrs, emplacedAddrs, failedAddrs, emplacedGateways] at *
    simp [List.filterMap_cons, h1, h2, h3, h4, h5]

theorem mem_failedAddrs_of_mem_warnedAddrs (evs : List Event) (a : Address)
    (h : a ∈ warnedAddrs evs) : a ∈ failedAddrs evs := by
  simp only [warnedAddrs, failedAddrs, List.mem_filterMap] at h ⊢
  obtain ⟨e, he, h2⟩ := h
  refine ⟨e, he, ?_⟩
  cases e <;> simp_all

theorem addLoop_mState (f : GatewayFactory) (pg : PeerGateways) (as : List Address) :
    (addLoop f pg as).pg.mState = pg.mState := by
  induction as generalizing pg with
  | nil => rfl
  | cons a rest ih => rw [addLoop_cons]; simp only; rw [ih, addNew_mState]

theorem addLoop_scanning (f : GatewayFactory) (pg : PeerGateways) (as : List Address) :
    (addLoop f pg as).pg.scanning = pg.scanning := by
  induction as generalizing pg with
  | nil => rfl
  | cons a rest ih => rw [addLoop_cons]; simp only; rw [ih, addNew_scanning]

theorem addLoop_factoryCalls_le (f : GatewayFactory) (pg : PeerGateways) (as : List Address) :
    pg.factoryCalls ≤ (addLoop f pg as).pg.factoryCalls := by
  induction as generalizing pg with
  | nil => exact Nat.le_refl _
  | cons a rest ih =>
    rw [addLoop_cons]
    exact Nat.le_trans (addNew_factoryCalls_le f pg a) (ih _)

theorem addLoop_erased (f : GatewayFactory) (pg : PeerGateways) (as : List Address) :
    erasedAddrs (addLoop f pg as).events = [] := by
  induction as generalizing pg with
  | nil => rfl
  | cons a rest ih =>
    rw [addLoop_cons]; simp only
    rw [erasedAddrs_append, addNew_erased, ih]; rfl

/-- The factory is called once for every IPv4 address of the list, in order,
and for nothing else. -/
theorem addLoop_factoryAddrs (f : GatewayFactory) (pg : PeerGateways) (as : List Address) :
    factoryAddrs (addLoop f pg as).events = as.filter Address.is_v4 := by
  induction as generalizing pg with
  | nil => rfl
  | cons a rest ih =>
    rw [addLoop_cons]; simp only
    rw [factoryAddrs_append, addNew_factoryAddrs, ih]
    by_cases hv : a.is_v4 = true
    · simp [hv, List.filter_cons]
    · simp [hv, List.filter_cons]

theorem addLoop_emplaced_sub (f : GatewayFactory) (pg : PeerGateways) (as : List Address)
    (b : Address) (hb : b ∈ emplacedAddrs (addLoop f pg as).events) :
    b ∈ as ∧ b.is_v4 = true := by
  induction as generalizing pg with
  | nil => simp [addLoop, emplacedAddrs] at hb
  | cons a rest ih =>
    rw [addLoop_cons] at hb; simp only at hb
    rw [emplacedAddrs_append, List.mem_append] at hb
    rcases hb with hb | hb
    · obtain ⟨h1, h2⟩ := addNew_emplaced_sub f pg a b hb
      subst h1; exact ⟨List.mem_cons_self _ _, h2⟩
    · obtain ⟨h1, h2⟩ := ih _ hb
      exact ⟨List.mem_cons_of_mem _ h1, h2⟩

theorem addLoop_mem_keys (f : GatewayFactory) (pg : PeerGateways) (as : List Address)
    (b : Address) :
    b ∈ GatewayMap.keys (addLoop f pg as).pg.mGateways ↔
      b ∈ GatewayMap.keys pg.mGateways ∨ b ∈ emplacedAddrs (addLoop f pg as).events := by
  induction as generalizing pg with
  | nil => simp [addLoop, emplacedAddrs]
  | cons a rest ih =>
    rw [addLoop_cons]; simp only
    rw [ih, addNew_mem_keys, emplacedAddrs_append, List.mem_append]
    tauto

theorem addLoop_find_of_not_mem (f : GatewayFactory) (pg : PeerGateways) (as : List Address)
    (b : Address) (hb : b ∉ as) :
    GatewayMap.find (addLoop f pg as).pg.mGateways b = GatewayMap.find pg.mGateways b := by
  induction as generalizing pg with
  | nil => rfl
  | cons a rest ih =>
    simp only [List.mem_cons, not_or] at hb
    rw [addLoop_cons]; simp only
    rw [ih _ hb.2, addNew_find_of_ne f pg a b hb.1]

theorem addLoop_sorted (f : GatewayFactory) (pg : PeerGateways) (as : List Address)
    (hs : GatewayMap.Sorted pg.mGateways) :
    GatewayMap.Sorted (addLoop f pg as).pg.mGateways := by
  induction as generalizing pg with
  | nil => exact hs
  | cons a rest ih =>
    rw [addLoop_cons]
    exact ih _ (addNew_sorted f pg a hs)

/-- An entry of the map after the loop is an old entry, or a responder built
in the loop: on an IPv4 address, holding the stored node state, and numbered by
a factory call of this loop. -/
theorem addLoop_entries (f : GatewayFactory) (pg : PeerGateways) (as : List Address)
    (e : Address × PingResponder) (he : e ∈ (addLoop f pg as).pg.mGateways) :
    e ∈ pg.mGateways ∨
      (e.1 ∈ as ∧ e.1.is_v4 = true ∧ e.2.nodeState = pg.mState ∧ e.2.address = e.1 ∧
        pg.factoryCalls ≤ e.2.instanceId) := by
  induction as generalizing pg with
  | nil => left; exact he
  | cons a rest ih =>
    rw [addLoop_cons] at he
    rcases ih _ he with h | ⟨h1, h2, h3, h4, h5⟩
    · rcases addNew_entries f pg a e h with h | ⟨h1, h2, h3⟩
      · left; exact h
      · right
        refine ⟨by rw [h1]; exact List.mem_cons_self _ _, by rw [h1]; exact h2, ?_, ?_, ?_⟩
        · rw [h3]; rfl
        · rw [h3, h1]; rfl
        · rw [h3]; exact Nat.le_refl _
    · right
      refine ⟨List.mem_cons_of_mem _ h1, h2, ?_, h4, ?_⟩
      · rw [h3, addNew_mState]
      · exact Nat.le_trans (addNew_factoryCalls_le f pg a) h5

/-- Every responder emplaced by the loop was seeded with the stored node state
and is a new instance. -/
theorem addLoop_emplacedGateways (f : GatewayFactory) (pg : PeerGateways)
    (as : List Address) (g : PingResponder)
    (hg : g ∈ emplacedGateways (addLoop f pg as).events) :
    g.nodeState = pg.mState ∧ pg.factoryCalls ≤ g.instanceId := by
  induction as generalizing pg with
  | nil => simp [addLoop, emplacedGateways] at hg
  | cons a rest ih =>
    rw [addLoop_cons] at hg; simp only at hg
    rw [emplacedGateways_append, List.mem_append] at hg
    rcases hg with hg | hg
    · rw [addNew_emplacedGateways f pg a g hg]
      exact ⟨rfl, Nat.le_refl _⟩
    · obtain ⟨h1, h2⟩ := ih _ hg
      refine ⟨by rw [h1, addNew_mState], ?_⟩
      exact Nat.le_trans (addNew_factoryCalls_le f pg a) h2

/-- The scan callback on a well-formed map and a strictly ascending range:
the entries whose key is not in the range are erased, then the loop runs over
the addresses of the range that are not keys. -/
theorem scanCallback_sorted (f : GatewayFactory) (pg : PeerGateways) (S : List Address)
    (hm : GatewayMap.Sorted pg.mGateways) (hS : SortedAddrs S) :
    scanCallback f pg S =
      ⟨(addLoop f { pg with mGateways := pg.mGateways.filter (fun e => decide (e.1 ∈ S)) }
          (S.filter (fun a => decide (a ∉ GatewayMap.keys pg.mGateways)))).pg,
        ((GatewayMap.keys pg.mGateways).filter (fun a => decide (a ∉ S))).map Event.erased ++
          (addLoop f { pg with mGateways := pg.mGateways.filter (fun e => decide (e.1 ∈ S)) }
            (S.filter (fun a => decide (a ∉ GatewayMap.keys pg.mGateways)))).events,
        none⟩ := by
  have hC : SortedAddrs (GatewayMap.keys pg.mGateways) := hm
  have hstale := set_difference_eq_filter (GatewayMap.keys pg.mGateways) S hC hS
  have hnew := set_difference_eq_filter S (GatewayMap.keys pg.mGateways) hS hC
  have hmap : (eraseStale pg.mGateways
      ((GatewayMap.keys pg.mGateways).filter (fun a => decide (a ∉ S)))).1
      = pg.mGateways.filter (fun e => decide (e.1 ∈ S)) := by
    rw [eraseStale_map _ _ hm]
    apply List.filter_congr
    intro e he
    have : e.1 ∈ GatewayMap.keys pg.mGateways := GatewayMap.mem_keys_of_mem he
    simp [List.mem_filter, this]
  have hev : (eraseStale pg.mGateways
      ((GatewayMap.keys pg.mGateways).filter (fun a => decide (a ∉ S)))).2
      = ((GatewayMap.keys pg.mGateways).filter (fun a => decide (a ∉ S))).map Event.erased := by
    apply eraseStale_events _ _ hm
    · exact (hC.filter _).nodup
    · intro a ha
      exact (List.mem_filter.1 ha).1
  simp only [scanCallback]
  rw [hstale, hnew, hmap, hev, addLoop_escaped]

theorem scanCallback_escaped (f : GatewayFactory) (pg : PeerGateways) (S : List Address) :
    (scanCallback f pg S).escaped = none := by
  simp only [scanCallback]
  exact addLoop_escaped _ _ _

theorem scanCallback_mState (f : GatewayFactory) (pg : PeerGateways) (S : List Address) :
    (scanCallback f pg S).pg.mState = pg.mState := by
  simp only [scanCallback]
  rw [addLoop_mState]

theorem mem_keys_filter_mem (m : GatewayMap) (S : List Address) (a : Address) :
    a ∈ GatewayMap.keys (m.filter (fun e => decide (e.1 ∈ S))) ↔
      a ∈ GatewayMap.keys m ∧ a ∈ S := by
  rw [GatewayMap.keys_filter m (fun k => decide (k ∈ S))]
  simp [List.mem_filter]

theorem scanCallback_emplaced_eq (f : GatewayFactory) (pg : PeerGateways) (S : List Address)
    (hm : GatewayMap.Sorted pg.mGateways) (hS : SortedAddrs S) :
    emplacedAddrs (scanCallback f pg S).events =
      emplacedAddrs (addLoop f
        { pg with mGateways := pg.mGateways.filter (fun e => decide (e.1 ∈ S)) }
        (S.filter (fun a => decide (a ∉ GatewayMap.keys pg.mGateways)))).events := by
  rw [scanCallback_sorted f pg S hm hS]
  simp only
  rw [emplacedAddrs_append, (projections_map_erased _).2.2.1, List.nil_append]

/-- The keys after a scan: the old keys that are in the range, and the
addresses emplaced during the scan. -/
theorem scanCallback_mem_keys (f : GatewayFactory) (pg : PeerGateways) (S : List Address)
    (hm : GatewayMap.Sorted pg.mGateways) (hS : SortedAddrs S) (a : Address) :
    a ∈ GatewayMap.keys (scanCallback f pg S).pg.mGateways ↔
      (a ∈ GatewayMap.keys pg.mGateways ∧ a ∈ S) ∨
        a ∈ emplacedAddrs (scanCallback f pg S).events := by
  rw [scanCallback_emplaced_eq f pg S hm hS]
  rw [scanCallback_sorted f pg S hm hS]
  simp only
  rw [addLoop_mem_keys]
  simp only
  rw [mem_keys_filter_mem]

theorem scanCallback_emplaced_sub (f : GatewayFactory) (pg : PeerGateways) (S : List Address)
    (hm : GatewayMap.Sorted pg.mGateways) (hS : SortedAddrs S) (a : Address)
    (ha : a ∈ emplacedAddrs (scanCallback f pg S).events) :
    a ∈ S ∧ a ∉ GatewayMap.keys pg.mGateways ∧ a.is_v4 = true := by
  rw [scanCallback_emplaced_eq f pg S hm hS] at ha
  obtain ⟨h1, h2⟩ := addLoop_emplaced_sub f _ _ a ha
  simp only [List.mem_filter, decide_eq_true_eq] at h1
  exact ⟨h1.1, h1.2, h2⟩

/-- An entry that the scan neither erased nor built is found unchanged. -/
theorem scanCallback_find_kept (f : GatewayFactory) (pg : PeerGateways) (S : List Address)
    (hm : GatewayMap.Sorted pg.mGateways) (hS : SortedAddrs S) (a : Address)
    (h1 : a ∈ GatewayMap.keys pg.mGateways) (h2 : a ∈ S) :
    GatewayMap.find (scanCallback f pg S).pg.mGateways a = GatewayMap.find pg.mGateways a := by
  rw [scanCallback_sorted f pg S hm hS]
  simp only
  rw [addLoop_find_of_not_mem]
  · simp only
    rw [GatewayMap.find_filter pg.mGateways (fun k => decide (k ∈ S)) a]
    simp [h2]
  · simp [List.mem_filter, h1]

end PeerGateways

namespace PeerGateways

theorem scanCallback_erasedAddrs (f : GatewayFactory) (pg : PeerGateways) (S : List Address)
    (hm : GatewayMap.Sorted pg.mGateways) (hS : SortedAddrs S) :
    erasedAddrs (scanCallback f pg S).events
      = (GatewayMap.keys pg.mGateways).filter (fun a => decide (a ∉ S)) := by
  rw [scanCallback_sorted f pg S hm hS]
  simp only
  rw [erasedAddrs_append, (projections_map_erased _).1, addLoop_erased, List.append_nil]

theorem scanCallback_factoryAddrs (f : GatewayFactory) (pg : PeerGateways) (S : List Address)
    (hm : GatewayMap.Sorted pg.mGateways) (hS : SortedAddrs S) :
    factoryAddrs (scanCallback f pg S).events
      = (S.filter (fun a => decide (a ∉ GatewayMap.keys pg.mGateways))).filter
          Address.is_v4 := by
  rw [scanCallback_sorted f pg S hm hS]
  simp only
  rw [factoryAddrs_append, (projections_map_erased _).2.1, addLoop_factoryAddrs,
    List.nil_append]

theorem mem_erase_sub (m : GatewayMap) (a : Address) (e : Address × PingResponder)
    (he : e ∈ (GatewayMap.erase m a).1) : e ∈ m := by
  induction m with
  | nil => simp [GatewayMap.erase] at he
  | cons e0 m ih =>
    obtain ⟨k, g⟩ := e0
    by_cases hk : k = a
    · simp only [GatewayMap.erase, if_pos hk] at he
      exact List.mem_cons_of_mem _ he
    · simp only [GatewayMap.erase, if_neg hk] at he
      rcases List.mem_cons.1 he with h | h
      · rw [h]; exact List.mem_cons_self _ _
      · exact List.mem_cons_of_mem _ (ih h)

theorem mem_eraseStale_sub (m : GatewayMap) (as : List Address) (e : Address × PingResponder)
    (he : e ∈ (eraseStale m as).1) : e ∈ m := by
  induction as generalizing m with
  | nil => exact he
  | cons a rest ih =>
    simp only [eraseStale] at he
    exact mem_erase_sub m a e (ih _ he)

theorem eraseStale_emplacedGateways (m : GatewayMap) (as : List Address) :
    emplacedGateways (eraseStale m as).2 = [] := by
  induction as generalizing m with
  | nil => rfl
  | cons a rest ih =>
    simp only [eraseStale]
    rw [emplacedGateways_append, ih]
    by_cases h : (GatewayMap.erase m a).2 = 0
    · simp [h, emplacedGateways]
    · simp [h, emplacedGateways]

/-- The consistency of the node state is kept by every call on the registry. -/
theorem step_consistent (f : GatewayFactory) (pg : PeerGateways) (st : Step)
    (h : ∀ e ∈ pg.mGateways, e.2.nodeState = pg.mState) :
    ∀ e ∈ (step f pg st).mGateways, e.2.nodeState = (step f pg st).mState := by
  cases st with
  | enable b =>
    intro e he
    simp [step, enable] at he
  | updateNodeState s =>
    intro e he
    simp only [step, updateNodeState, List.mem_map] at he ⊢
    obtain ⟨e0, _, h0⟩ := he
    rw [← h0]
    rfl
  | repairGateway a =>
    intro e he
    have hsub : e ∈ pg.mGateways := by
      simp only [step, repairGateway] at he
      split at he
      · exact mem_erase_sub _ a e he
      · exact mem_erase_sub _ a e he
    have hst : (step f pg (Step.repairGateway a)).mState = pg.mState := by
      simp only [step, repairGateway]
      split <;> rfl
    rw [hst]
    exact h e hsub
  | scan range =>
    intro e he
    simp only [step] at he ⊢
    rw [scanCallback_mState]
    simp only [scanCallback] at he
    rcases addLoop_entries f _ _ e he with h1 | ⟨_, _, h3, _, _⟩
    · exact h e (mem_eraseStale_sub _ _ e h1)
    · exact h3

theorem step_mState (f : GatewayFactory) (pg : PeerGateways) (st : Step) :
    (step f pg st).mState = lastState pg.mState [st] := by
  cases st with
  | enable b => rfl
  | updateNodeState s => rfl
  | repairGateway a =>
    simp only [step, repairGateway, lastState]
    split <;> rfl
  | scan range =>
    simp only [step, lastState]
    exact scanCallback_mState f pg range

theorem lastState_cons (s0 : NodeState) (st : Step) (rest : List Step) :
    lastState s0 (st :: rest) = lastState (lastState s0 [st]) rest := by
  cases st <;> rfl

theorem runSteps_mState (f : GatewayFactory) (pg : PeerGateways) (steps : List Step) :
    (runSteps f pg steps).mState = lastState pg.mState steps := by
  induction steps generalizing pg with
  | nil => rfl
  | cons st rest ih =>
    simp only [runSteps, List.foldl_cons] at ih ⊢
    rw [ih, step_mState, ← lastState_cons]

theorem runSteps_consistent (f : GatewayFactory) (pg : PeerGateways) (steps : List Step)
    (h : ∀ e ∈ pg.mGateways, e.2.nodeState = pg.mState) :
    ∀ e ∈ (runSteps f pg steps).mGateways, e.2.nodeState = (runSteps f pg steps).mState := by
  induction steps generalizing pg with
  | nil => exact h
  | cons st rest ih =>
    simp only [runSteps, List.foldl_cons] at ih ⊢
    exact ih _ (step_consistent f pg st h)

theorem keys_updateNodeState (pg : PeerGateways) (s : NodeState) :
    GatewayMap.keys (pg.updateNodeState s).pg.mGateways = GatewayMap.keys pg.mGateways := by
  simp [updateNodeState, GatewayMap.keys, List.map_map, Function.comp_def]

/-- Every call on the registry keeps the map well-formed: keys strictly
ascending, and all of them IPv4 addresses. -/
theorem step_wellFormed (f : GatewayFactory) (pg : PeerGateways) (st : Step)
    (hs : GatewayMap.Sorted pg.mGateways)
    (hv : ∀ a ∈ GatewayMap.keys pg.mGateways, a.is_v4 = true) :
    GatewayMap.Sorted (step f pg st).mGateways ∧
      ∀ a ∈ GatewayMap.keys (step f pg st).mGateways, a.is_v4 = true := by
  have hsub : ∀ (m : GatewayMap), (∀ e ∈ m, e ∈ pg.mGateways) →
      ∀ a ∈ GatewayMap.keys m, a.is_v4 = true := by
    intro m hm a ha
    obtain ⟨e, he, hea⟩ := List.mem_map.1 ha
    rw [← hea]
    exact hv e.1 (GatewayMap.mem_keys_of_mem (hm e he))
  cases st with
  | enable b =>
    refine ⟨by simp [step, enable, GatewayMap.Sorted, GatewayMap.keys, SortedAddrs], ?_⟩
    intro a ha
    simp [step, enable, GatewayMap.keys] at ha
  | updateNodeState s =>
    simp only [step]
    unfold GatewayMap.Sorted
    rw [keys_updateNodeState]
    exact ⟨hs, hv⟩
  | repairGateway a =>
    have hmap : (step f pg (Step.repairGateway a)).mGateways
        = pg.mGateways.filter (fun e => decide (e.1 ≠ a)) := by
      simp only [step, repairGateway]
      split <;> exact GatewayMap.erase_eq_filter _ _ hs
    rw [hmap]
    refine ⟨GatewayMap.sorted_filter pg.mGateways (fun k => decide (k ≠ a)) hs, ?_⟩
    exact hsub _ (fun e he => (List.mem_filter.1 he).1)
  | scan range =>
    simp only [step, scanCallback]
    constructor
    · apply addLoop_sorted
      simp only
      rw [eraseStale_map _ _ hs]
      exact GatewayMap.sorted_filter pg.mGateways
        (fun k => decide (k ∉ set_difference (GatewayMap.keys pg.mGateways) range)) hs
    · intro a ha
      obtain ⟨e, he, hea⟩ := List.mem_map.1 ha
      rw [← hea]
      rcases addLoop_entries f _ _ e he with h1 | ⟨_, h2, _⟩
      · exact hv e.1 (GatewayMap.mem_keys_of_mem (mem_eraseStale_sub _ _ e h1))
      · exact h2

/-- Every state reached from construction has a well-formed map with IPv4
keys: the hypotheses of the theorems on the scan callback hold for every
registry. -/
theorem runSteps_wellFormed (f : GatewayFactory) (pg : PeerGateways) (steps : List Step)
    (hs : GatewayMap.Sorted pg.mGateways)
    (hv : ∀ a ∈ GatewayMap.keys pg.mGateways, a.is_v4 = true) :
    GatewayMap.Sorted (runSteps f pg steps).mGateways ∧
      ∀ a ∈ GatewayMap.keys (runSteps f pg steps).mGateways, a.is_v4 = true := by
  induction steps generalizing pg with
  | nil => exact ⟨hs, hv⟩
  | cons st rest ih =>
    simp only [runSteps, List.foldl_cons] at ih ⊢
    exact ih _ (step_wellFormed f pg st hs hv).1 (step_wellFormed f pg st hs hv).2

theorem reachable_wellFormed (f : GatewayFactory) (s0 : NodeState) (steps : List Step) :
    GatewayMap.Sorted (runSteps f (PeerGateways.new s0) steps).mGateways ∧
      ∀ a ∈ GatewayMap.keys (runSteps f (PeerGateways.new s0) steps).mGateways,
        a.is_v4 = true :=
  runSteps_wellFormed f _ steps
    (by simp [PeerGateways.new, GatewayMap.Sorted, GatewayMap.keys, SortedAddrs])
    (by intro a ha; simp [PeerGateways.new, GatewayMap.keys] at ha)

end PeerGateways

/-! ## Reconciliation: the claims -/

open PeerGateways in
/-- C10: reconciliation touches only the difference. On a well-formed map with
key sequence `C` and a strictly ascending range `S`, the scan callback erases
exactly the addresses of `C` that are not in `S`; calls the factory exactly once
for each IPv4 address of `S` that is not in `C`, and for no other address; its
events split into a first part without factory calls and a second part without
erases, so that every erase precedes every factory call; the entries of `C`
outside `S` are gone; and every entry whose key is in both `C` and `S` is found
afterwards as the identical responder (same instance, same state). -/
theorem scanCallback_touches_only_difference (f : GatewayFactory) (pg : PeerGateways)
    (S : List Address) (hm : GatewayMap.Sorted pg.mGateways) (hS : SortedAddrs S) :
    erasedAddrs (scanCallback f pg S).events
        = (GatewayMap.keys pg.mGateways).filter (fun a => decide (a ∉ S)) ∧
    factoryAddrs (scanCallback f pg S).events
        = (S.filter (fun a => decide (a ∉ GatewayMap.keys pg.mGateways))).filter
            Address.is_v4 ∧
    (∃ ev1 ev2, (scanCallback f pg S).events = ev1 ++ ev2 ∧
        factoryAddrs ev1 = [] ∧ erasedAddrs ev2 = []) ∧
    (∀ a, a ∈ GatewayMap.keys pg.mGateways → a ∉ S →
        GatewayMap.find (scanCallback f pg S).pg.mGateways a = none) ∧
    (∀ a, a ∈ GatewayMap.keys pg.mGateways → a ∈ S →
        GatewayMap.find (scanCallback f pg S).pg.mGateways a
          = GatewayMap.find pg.mGateways a) := by
  refine ⟨scanCallback_erasedAddrs f pg S hm hS, scanCallback_factoryAddrs f pg S hm hS,
    ?_, ?_, ?_⟩
  · rw [scanCallback_sorted f pg S hm hS]
    exact ⟨_, _, rfl, (projections_map_erased _).2.1, addLoop_erased _ _ _⟩
  · intro a h1 h2
    apply GatewayMap.find_eq_none_of_not_mem
    rw [scanCallback_mem_keys f pg S hm hS]
    rintro (⟨_, h⟩ | h)
    · exact h2 h
    · exact (scanCallback_emplaced_sub f pg S hm hS a h).2.1 h1
  · intro a h1 h2
    exact scanCallback_find_kept f pg S hm hS a h1 h2

/-- C10, at a sample: a registry with gateways on 1 and 3 receives the scan
result 1, 5 and an IPv6 address. -/
theorem scanCallback_touches_only_difference_witness :
    GatewayMap.Sorted sampleRegistry.mGateways ∧ SortedAddrs sampleRange ∧
    erasedAddrs (sampleRegistry.scanCallback factoryOk sampleRange).events
        = (GatewayMap.keys sampleRegistry.mGateways).filter
            (fun a => decide (a ∉ sampleRange)) ∧
    factoryAddrs (sampleRegistry.scanCallback factoryOk sampleRange).events
        = (sampleRange.filter
            (fun a => decide (a ∉ GatewayMap.keys sampleRegistry.mGateways))).filter
            Address.is_v4 ∧
    (∃ ev1 ev2, (sampleRegistry.scanCallback factoryOk sampleRange).events = ev1 ++ ev2 ∧
        factoryAddrs ev1 = [] ∧ erasedAddrs ev2 = []) ∧
    (∀ a, a ∈ GatewayMap.keys sampleRegistry.mGateways → a ∉ sampleRange →
        GatewayMap.find (sampleRegistry.scanCallback factoryOk sampleRange).pg.mGateways a
          = none) ∧
    (∀ a, a ∈ GatewayMap.keys sampleRegistry.mGateways → a ∈ sampleRange →
        GatewayMap.find (sampleRegistry.scanCallback factoryOk sampleRange).pg.mGateways a
          = GatewayMap.find sampleRegistry.mGateways a) :=
  ⟨by decide, by decide,
    scanCallback_touches_only_difference factoryOk sampleRegistry sampleRange
      (by decide) (by decide)⟩

open PeerGateways in
/-- C3 (amended): every construction failure is contained. The scan callback
returns normally on every input, whatever the factory throws. An iteration in
which the factory throws a `runtime_error` logs a warning and leaves the map as
it was; an iteration in which the factory throws any other exception prints the
type name of the exception, logs no warning, leaves the map as it was, and the
exception does not leave the iteration either. -/
theorem scanCallback_contains_every_failure (f : GatewayFactory) (pg : PeerGateways)
    (S : List Address) (a : Address) :
    (scanCallback f pg S).escaped = none ∧
    (a.is_v4 = true → f pg.factoryCalls pg.mState a = some Failure.runtimeError →
      addNew f pg a =
        ⟨{ pg with factoryCalls := pg.factoryCalls + 1 },
          [Event.logInfo a, Event.factoryCall pg.factoryCalls pg.mState a,
            Event.logWarning a], none⟩) ∧
    (a.is_v4 = true → f pg.factoryCalls pg.mState a = some Failure.unclassified →
      addNew f pg a =
        ⟨{ pg with factoryCalls := pg.factoryCalls + 1 },
          [Event.logInfo a, Event.factoryCall pg.factoryCalls pg.mState a,
            Event.printedTypeName a], none⟩) := by
  refine ⟨scanCallback_escaped f pg S, ?_, ?_⟩
  · intro hv hf
    simp [addNew, tryConstruct, hv, hf]
  · intro hv hf
    simp [addNew, tryConstruct, hv, hf]

/-- C3 (amended), at a sample: the factory throws an unclassified exception for
the address 5. -/
theorem scanCallback_contains_every_failure_witness :
    (sampleRegistry.scanCallback factoryThrowsOther sampleRange).escaped = none ∧
    (Address.v4 5).is_v4 = true ∧
    factoryThrowsOther sampleRegistry.factoryCalls sampleRegistry.mState (.v4 5)
      = some Failure.unclassified ∧
    sampleRegistry.addNew factoryThrowsOther (.v4 5) =
      ⟨{ sampleRegistry with factoryCalls := sampleRegistry.factoryCalls + 1 },
        [Event.logInfo (.v4 5),
          Event.factoryCall sampleRegistry.factoryCalls sampleRegistry.mState (.v4 5),
          Event.printedTypeName (.v4 5)], none⟩ :=
  ⟨(scanCallback_contains_every_failure factoryThrowsOther sampleRegistry sampleRange
      (.v4 5)).1,
    by decide, by decide,
    (scanCallback_contains_every_failure factoryThrowsOther sampleRegistry sampleRange
      (.v4 5)).2.2 (by decide) (by decide)⟩

/-- C3 as stated fails: the factory throws an exception that is not a
`runtime_error` for the new address 5, and the scan callback completes
normally: nothing escapes to the caller, the catch-all handler has printed the
type name, and the address is dropped without a warning. -/
theorem unclassified_failure_counterexample :
    factoryThrowsOther sampleRegistry.factoryCalls sampleRegistry.mState (.v4 5)
      = some Failure.unclassified ∧
    (sampleRegistry.scanCallback factoryThrowsOther sampleRange).escaped = none ∧
    (sampleRegistry.scanCallback factoryThrowsOther sampleRange).events =
      [Event.erased (.v4 3), Event.logInfo (.v4 5),
        Event.factoryCall 2 sampleState (.v4 5), Event.printedTypeName (.v4 5)] ∧
    GatewayMap.keys (sampleRegistry.scanCallback factoryThrowsOther sampleRange).pg.mGateways
      = [.v4 1] := by
  decide


open PeerGateways in
/-- C6: repairGateway. On a well-formed map, when the address is not a key the
registry is unchanged and nothing happens (no call of the scanner); when the
address is a key, exactly the entry of that key is removed, every other entry
stays as it is, and the scanner's `scan()` is called exactly once, within the
call, after the erase. -/
theorem repairGateway_spec (pg : PeerGateways) (a : Address)
    (hm : GatewayMap.Sorted pg.mGateways) :
    (a ∉ GatewayMap.keys pg.mGateways → repairGateway pg a = ⟨pg, [], none⟩) ∧
    (a ∈ GatewayMap.keys pg.mGateways →
      repairGateway pg a =
        ⟨{ pg with mGateways := pg.mGateways.filter (fun e => decide (e.1 ≠ a)) },
          [Event.erased a, Event.scannerScan], none⟩ ∧
      scanCalls (repairGateway pg a).events = 1 ∧
      (∀ b, b ≠ a → GatewayMap.find (repairGateway pg a).pg.mGateways b
          = GatewayMap.find pg.mGateways b) ∧
      GatewayMap.find (repairGateway pg a).pg.mGateways a = none) := by
  constructor
  · intro h
    simp [repairGateway, GatewayMap.erase_of_not_mem _ _ h]
  · intro h
    have hcount : (GatewayMap.erase pg.mGateways a).2 ≠ 0 := by
      rw [GatewayMap.erase_count_of_mem _ _ h]; decide
    have heq : repairGateway pg a =
        ⟨{ pg with mGateways := pg.mGateways.filter (fun e => decide (e.1 ≠ a)) },
          [Event.erased a, Event.scannerScan], none⟩ := by
      simp only [repairGateway, if_pos hcount]
      rw [GatewayMap.erase_eq_filter _ _ hm]
    refine ⟨heq, ?_, ?_, ?_⟩
    · rw [heq]; simp [scanCalls]
    · intro b hb
      rw [heq]
      simp only
      rw [GatewayMap.find_filter pg.mGateways (fun k => decide (k ≠ a)) b]
      simp [hb]
    · rw [heq]
      simp only
      rw [GatewayMap.find_filter pg.mGateways (fun k => decide (k ≠ a)) a]
      simp

/-- C6, at a sample: repairing the mapped address 3 and the unmapped address 5
of the sample registry. -/
theorem repairGateway_spec_witness :
    GatewayMap.Sorted sampleRegistry.mGateways ∧
    Address.v4 5 ∉ GatewayMap.keys sampleRegistry.mGateways ∧
    sampleRegistry.repairGateway (.v4 5) = ⟨sampleRegistry, [], none⟩ ∧
    Address.v4 3 ∈ GatewayMap.keys sampleRegistry.mGateways ∧
    sampleRegistry.repairGateway (.v4 3) =
      ⟨{ sampleRegistry with
          mGateways := sampleRegistry.mGateways.filter (fun e => decide (e.1 ≠ .v4 3)) },
        [Event.erased (.v4 3), Event.scannerScan], none⟩ :=
  ⟨by decide, by decide,
    (repairGateway_spec sampleRegistry (.v4 5) (by decide)).1 (by decide),
    by decide,
    ((repairGateway_spec sampleRegistry (.v4 3) (by decide)).2 (by decide)).1⟩

open PeerGateways in
/-- C7: node-state consistency. In the state reached from construction with the
state `s0` by any sequence of `enable`, `updateNodeState`, `repairGateway` and
scan calls, with any factory, the stored `mState` is the argument of the last
`updateNodeState` (or `s0`), and every responder in the map holds that node
state. From there, `updateNodeState s` stores `s`, keeps the key sequence of the
map, and leaves every responder holding `s`; and every responder a scan
constructs is seeded with the stored state. -/
theorem node_state_consistency (f : GatewayFactory) (s0 : NodeState) (steps : List Step) :
    (runSteps f (PeerGateways.new s0) steps).mState = lastState s0 steps ∧
    (∀ e ∈ (runSteps f (PeerGateways.new s0) steps).mGateways,
        e.2.nodeState = lastState s0 steps) ∧
    (∀ s, ((runSteps f (PeerGateways.new s0) steps).updateNodeState s).pg.mState = s ∧
        GatewayMap.keys ((runSteps f (PeerGateways.new s0) steps).updateNodeState s).pg.mGateways
          = GatewayMap.keys (runSteps f (PeerGateways.new s0) steps).mGateways ∧
        (∀ e ∈ ((runSteps f (PeerGateways.new s0) steps).updateNodeState s).pg.mGateways,
          e.2.nodeState = s)) ∧
    (∀ range, ∀ g ∈ emplacedGateways
          ((runSteps f (PeerGateways.new s0) steps).scanCallback f range).events,
        g.nodeState = lastState s0 steps) := by
  have hst : (runSteps f (PeerGateways.new s0) steps).mState = lastState s0 steps :=
    runSteps_mState f (PeerGateways.new s0) steps
  have hcons := runSteps_consistent f (PeerGateways.new s0) steps
    (by intro e he; simp [PeerGateways.new] at he)
  refine ⟨hst, ?_, ?_, ?_⟩
  · intro e he
    rw [← hst]
    exact hcons e he
  · intro s
    refine ⟨rfl, ?_, ?_⟩
    · exact keys_updateNodeState _ s
    · intro e he
      simp only [updateNodeState, List.mem_map] at he
      obtain ⟨e0, _, h0⟩ := he
      rw [← h0]
      rfl
  · intro range g hg
    simp only [scanCallback] at hg
    rw [emplacedGateways_append, eraseStale_emplacedGateways, List.nil_append] at hg
    rw [(addLoop_emplacedGateways f _ _ g hg).1]
    exact hst

open PeerGateways in
/-- C8: enable. For either value of `b` and any prior state, `enable b` leaves
the map empty (no address is found in it any more, whatever the map held), and
the clear of the map comes before `b` is passed to the scanner: the two calls
are `mGateways.clear()` and then `mpScanner->enable(b)`, and nothing else.
After `enable false` and then `enable true`, a scan that reports two IPv4
addresses `A < B` whose construction succeeds leaves exactly the two entries
`A` and `B`; the factory is called exactly twice, once for `A` and once for
`B`, and each entry is the responder built by its call during that scan: the
instances are numbered by these two calls, so none is an earlier responder. -/
theorem enable_spec (f : GatewayFactory) (pg : PeerGateways) (b : Bool) (A B : Address)
    (hA : A.is_v4 = true) (hB : B.is_v4 = true) (hAB : Address.lt A B = true)
    (hfA : f pg.factoryCalls pg.mState A = none)
    (hfB : f (pg.factoryCalls + 1) pg.mState B = none) :
    (pg.enable b).pg.mGateways = [] ∧
    (∀ a, GatewayMap.find (pg.enable b).pg.mGateways a = none) ∧
    (pg.enable b).events = [Event.cleared, Event.scannerEnable b] ∧
    (scanCallback f ((pg.enable false).pg.enable true).pg [A, B]).pg.mGateways
      = [(A, makeGateway pg.factoryCalls pg.mState A),
          (B, makeGateway (pg.factoryCalls + 1) pg.mState B)] ∧
    (scanCallback f ((pg.enable false).pg.enable true).pg [A, B]).events
      = [Event.logInfo A, Event.factoryCall pg.factoryCalls pg.mState A,
          Event.emplaced A (makeGateway pg.factoryCalls pg.mState A),
          Event.logInfo B, Event.factoryCall (pg.factoryCalls + 1) pg.mState B,
          Event.emplaced B (makeGateway (pg.factoryCalls + 1) pg.mState B)] := by
  have hBA : Address.lt B A = false := Address.lt_asymm hAB
  refine ⟨rfl, fun _ => rfl, rfl, ?_, ?_⟩
  · simp [scanCallback, enable, GatewayMap.keys, set_difference, setDifferenceFrom, eraseStale,
      addLoop, addNew, tryConstruct, hA, hB, hfA, hfB, GatewayMap.emplace, hAB, hBA]
  · simp [scanCallback, enable, GatewayMap.keys, set_difference, setDifferenceFrom, eraseStale,
      addLoop, addNew, tryConstruct, hA, hB, hfA, hfB, GatewayMap.emplace, hAB, hBA]

/-- C8, at a sample: the sample registry is disabled, enabled again, and then
scans the addresses 1 and 5. -/
theorem enable_spec_witness :
    (Address.v4 1).is_v4 = true ∧ (Address.v4 5).is_v4 = true ∧
    Address.lt (.v4 1) (.v4 5) = true ∧
    factoryOk sampleRegistry.factoryCalls sampleRegistry.mState (.v4 1) = none ∧
    factoryOk (sampleRegistry.factoryCalls + 1) sampleRegistry.mState (.v4 5) = none ∧
    (sampleRegistry.enable false).pg.mGateways = [] ∧
    (∀ a, GatewayMap.find (sampleRegistry.enable false).pg.mGateways a = none) ∧
    (sampleRegistry.enable false).events = [Event.cleared, Event.scannerEnable false] ∧
    (PeerGateways.scanCallback factoryOk
        ((sampleRegistry.enable false).pg.enable true).pg [.v4 1, .v4 5]).pg.mGateways
      = [(.v4 1, makeGateway sampleRegistry.factoryCalls sampleRegistry.mState (.v4 1)),
          (.v4 5, makeGateway (sampleRegistry.factoryCalls + 1) sampleRegistry.mState (.v4 5))] ∧
    (PeerGateways.scanCallback factoryOk
        ((sampleRegistry.enable false).pg.enable true).pg [.v4 1, .v4 5]).events
      = [Event.logInfo (.v4 1),
          Event.factoryCall sampleRegistry.factoryCalls sampleRegistry.mState (.v4 1),
          Event.emplaced (.v4 1)
            (makeGateway sampleRegistry.factoryCalls sampleRegistry.mState (.v4 1)),
          Event.logInfo (.v4 5),
          Event.factoryCall (sampleRegistry.factoryCalls + 1) sampleRegistry.mState (.v4 5),
          Event.emplaced (.v4 5)
            (makeGateway (sampleRegistry.factoryCalls + 1) sampleRegistry.mState (.v4 5))] :=
  ⟨by decide, by decide, by decide, by decide, by decide,
    enable_spec factoryOk sampleRegistry false (.v4 1) (.v4 5)
      (by decide) (by decide) (by decide) (by decide) (by decide)⟩


/-! ## The ping handler: the claims -/

namespace PingResponder

/-- What `reply` hands to the socket: the encoded Pong followed by the ping
payload, to the given endpoint. -/
theorem reply_events (w : Wire) (now : Int) (sendResult : Option Failure) (r : PingResponder)
    (payload : List Byte) (dest : Endpoint) :
    reply w now sendResult r payload dest
      = ([IoEvent.send (pongMessage w r now ++ payload) dest], sendResult) := by
  simp only [reply]
  rw [← List.length_append, List.take_length]

/-- The handler on a datagram that passes the check. -/
theorem operatorCall_accept (w : Wire) (now : Int) (sendResult : Option Failure)
    (r : PingResponder) (sender : Endpoint) (bytes : List Byte)
    (h : (w.parseMessageHeader bytes).1.messageType = w.kPing ∧
      (bytes.drop (w.parseMessageHeader bytes).2).length ≤ maxPayloadSize w) :
    operatorCall w now sendResult r sender bytes =
      match sendResult with
      | none =>
        ⟨r, [IoEvent.logDebugPing sender,
          IoEvent.send (pongMessage w r now ++ bytes.drop (w.parseMessageHeader bytes).2) sender,
          IoEvent.receive], none⟩
      | some Failure.runtimeError =>
        ⟨r, [IoEvent.logDebugPing sender,
          IoEvent.send (pongMessage w r now ++ bytes.drop (w.parseMessageHeader bytes).2) sender,
          IoEvent.logInfoSendFailed sender, IoEvent.receive], none⟩
      | some Failure.unclassified =>
        ⟨r, [IoEvent.logDebugPing sender,
          IoEvent.send (pongMessage w r now ++ bytes.drop (w.parseMessageHeader bytes).2) sender],
          some Failure.unclassified⟩ := by
  simp only [operatorCall, if_pos h, reply_events, listen]
  rcases sendResult with _ | e
  · rfl
  · cases e <;> rfl

/-- The handler on a datagram that fails the check. -/
theorem operatorCall_reject (w : Wire) (now : Int) (sendResult : Option Failure)
    (r : PingResponder) (sender : Endpoint) (bytes : List Byte)
    (h : ¬ ((w.parseMessageHeader bytes).1.messageType = w.kPing ∧
      (bytes.drop (w.parseMessageHeader bytes).2).length ≤ maxPayloadSize w)) :
    operatorCall w now sendResult r sender bytes =
      ⟨r, [IoEvent.logInfoInvalid sender, IoEvent.receive], none⟩ := by
  simp only [operatorCall, if_neg h, listen]
  rfl

end PingResponder

open PingResponder in
/-- C4: the Pong round trip. For every codec, clock value and outcome of the
send, when the header of the datagram parses as a Ping and the payload `P` (the
bytes behind the header) is no longer than the bound, the handler calls
`mSocket.send` exactly once, addressed to the sender, with the bytes of the
encoded Pong (Pong header, then the session entry of the responder's current
`mSessionId`, then the time entry of `hostToGhost (mClock.micros())` under the
current `mGhostXForm`) followed by `P`; the last `|P|` bytes sent are `P`, the
bytes before them are the encoded Pong, and the length sent is the size of the
encoded Pong plus `|P|`. -/
theorem pong_round_trip (w : Wire) (now : Int) (sendResult : Option Failure)
    (r : PingResponder) (sender : Endpoint) (bytes : List Byte)
    (hPing : (w.parseMessageHeader bytes).1.messageType = w.kPing)
    (hSize : (bytes.drop (w.parseMessageHeader bytes).2).length ≤ maxPayloadSize w) :
    sends (operatorCall w now sendResult r sender bytes).events
      = [(w.pongHeader ++ (w.sessionMembership r.mSessionId ++
            w.gHostTime (w.hostToGhost r.mGhostXForm now))
          ++ bytes.drop (w.parseMessageHeader bytes).2, sender)] ∧
    (pongMessage w r now ++ bytes.drop (w.parseMessageHeader bytes).2).drop
        (pongMessage w r now).length
      = bytes.drop (w.parseMessageHeader bytes).2 ∧
    (pongMessage w r now ++ bytes.drop (w.parseMessageHeader bytes).2).take
        (pongMessage w r now).length
      = pongMessage w r now ∧
    (pongMessage w r now ++ bytes.drop (w.parseMessageHeader bytes).2).length
      = (pongMessage w r now).length + (bytes.drop (w.parseMessageHeader bytes).2).length := by
  refine ⟨?_, List.drop_left _ _, List.take_left _ _, List.length_append _ _⟩
  rw [operatorCall_accept w now sendResult r sender bytes ⟨hPing, hSize⟩]
  rcases sendResult with _ | e
  · simp [sends, pongMessage]
  · cases e <;> simp [sends, pongMessage]

/-- C4, at a sample: a Ping with the payload `de ad be ef` is answered with the
Pong of session 7 and ghost time `1 * 1000 + 100`, followed by the payload. -/
theorem pong_round_trip_witness :
    (sampleWire.parseMessageHeader samplePing).1.messageType = sampleWire.kPing ∧
    (samplePing.drop (sampleWire.parseMessageHeader samplePing).2).length
      ≤ maxPayloadSize sampleWire ∧
    sends (PingResponder.operatorCall sampleWire 1000 none sampleResponder samplePeer
        samplePing).events
      = [(sampleWire.pongHeader ++ (sampleWire.sessionMembership sampleResponder.mSessionId ++
            sampleWire.gHostTime (sampleWire.hostToGhost sampleResponder.mGhostXForm 1000))
          ++ samplePing.drop (sampleWire.parseMessageHeader samplePing).2, samplePeer)] ∧
    samplePing.drop (sampleWire.parseMessageHeader samplePing).2 = [222, 173, 190, 239] :=
  ⟨by decide, by decide,
    (pong_round_trip sampleWire 1000 none sampleResponder samplePeer samplePing
      (by decide) (by decide)).1,
    by decide⟩

open PingResponder in
/-- C5: the rejection rule. For every datagram, `mSocket.send` is called if and
only if the parsed header has the type `kPing` and the payload (the bytes behind
the header) is no longer than `maxPayloadSize`, the encoded size of
`makePayload(HostTime{}, PrevGHostTime{})`. A datagram that fails the check (a
header that is not a Ping, which is how a header that did not parse is
reported, or a payload longer than the bound) causes the info log line and the
re-arming of the receive, and nothing else: no send. On every path the
responder's session identifier and transform are what they were. -/
theorem ping_rejection_rule (w : Wire) (now : Int) (sendResult : Option Failure)
    (r : PingResponder) (sender : Endpoint) (bytes : List Byte) :
    maxPayloadSize w = (w.hostTime 0).length + (w.prevGHostTime 0).length ∧
    (sends (operatorCall w now sendResult r sender bytes).events ≠ [] ↔
      ((w.parseMessageHeader bytes).1.messageType = w.kPing ∧
        (bytes.drop (w.parseMessageHeader bytes).2).length ≤ maxPayloadSize w)) ∧
    (¬ ((w.parseMessageHeader bytes).1.messageType = w.kPing ∧
        (bytes.drop (w.parseMessageHeader bytes).2).length ≤ maxPayloadSize w) →
      operatorCall w now sendResult r sender bytes
        = ⟨r, [IoEvent.logInfoInvalid sender, IoEvent.receive], none⟩) ∧
    (operatorCall w now sendResult r sender bytes).self = r := by
  refine ⟨by simp [maxPayloadSize], ?_, ?_, ?_⟩
  · by_cases h : (w.parseMessageHeader bytes).1.messageType = w.kPing ∧
        (bytes.drop (w.parseMessageHeader bytes).2).length ≤ maxPayloadSize w
    · rw [operatorCall_accept w now sendResult r sender bytes h]
      refine ⟨fun _ => h, fun _ => ?_⟩
      rcases sendResult with _ | e
      · simp [sends]
      · cases e <;> simp [sends]
    · rw [operatorCall_reject w now sendResult r sender bytes h]
      refine ⟨fun hne => absurd ?_ hne, fun hc => absurd hc h⟩
      simp [sends]
  · intro h
    exact operatorCall_reject w now sendResult r sender bytes h
  · by_cases h : (w.parseMessageHeader bytes).1.messageType = w.kPing ∧
        (bytes.drop (w.parseMessageHeader bytes).2).length ≤ maxPayloadSize w
    · rw [operatorCall_accept w now sendResult r sender bytes h]
      rcases sendResult with _ | e
      · rfl
      · cases e <;> rfl
    · rw [operatorCall_reject w now sendResult r sender bytes h]

/-- C5, at samples: a datagram without the protocol header, a Pong, and a Ping
whose payload is one byte too long are each dropped without a send. -/
theorem ping_rejection_rule_witness :
    maxPayloadSize sampleWire = 32 ∧
    ¬ ((sampleWire.parseMessageHeader sampleOversizedPing).1.messageType = sampleWire.kPing ∧
        (sampleOversizedPing.drop (sampleWire.parseMessageHeader sampleOversizedPing).2).length
          ≤ maxPayloadSize sampleWire) ∧
    PingResponder.operatorCall sampleWire 1000 none sampleResponder samplePeer sampleOversizedPing
      = ⟨sampleResponder, [IoEvent.logInfoInvalid samplePeer, IoEvent.receive], none⟩ ∧
    PingResponder.operatorCall sampleWire 1000 none sampleResponder samplePeer samplePongDatagram
      = ⟨sampleResponder, [IoEvent.logInfoInvalid samplePeer, IoEvent.receive], none⟩ ∧
    PingResponder.operatorCall sampleWire 1000 none sampleResponder samplePeer sampleGarbage
      = ⟨sampleResponder, [IoEvent.logInfoInvalid samplePeer, IoEvent.receive], none⟩ :=
  ⟨by decide, by decide,
    (ping_rejection_rule sampleWire 1000 none sampleResponder samplePeer
      sampleOversizedPing).2.2.1 (by decide),
    (ping_rejection_rule sampleWire 1000 none sampleResponder samplePeer
      samplePongDatagram).2.2.1 (by decide),
    (ping_rejection_rule sampleWire 1000 none sampleResponder samplePeer
      sampleGarbage).2.2.1 (by decide)⟩

open PingResponder in
/-- C9 (amended): the receive is re-armed. For every datagram, when the send of
the reply returns or throws a `runtime_error`, and on every path without a
reply (header that is not a Ping, oversized payload), the handler calls
`listen()` exactly once, as its last action, and no exception leaves the
handler; a `runtime_error` of the reply is logged. -/
theorem receive_rearmed (w : Wire) (now : Int) (sendResult : Option Failure)
    (r : PingResponder) (sender : Endpoint) (bytes : List Byte)
    (hSend : sendResult ≠ some Failure.unclassified) :
    (operatorCall w now sendResult r sender bytes).escaped = none ∧
    (operatorCall w now sendResult r sender bytes).events.count IoEvent.receive = 1 ∧
    (operatorCall w now sendResult r sender bytes).events.getLast? = some IoEvent.receive ∧
    (sendResult = some Failure.runtimeError →
      (w.parseMessageHeader bytes).1.messageType = w.kPing ∧
        (bytes.drop (w.parseMessageHeader bytes).2).length ≤ maxPayloadSize w →
      IoEvent.logInfoSendFailed sender ∈ (operatorCall w now sendResult r sender bytes).events) := by
  by_cases h : (w.parseMessageHeader bytes).1.messageType = w.kPing ∧
      (bytes.drop (w.parseMessageHeader bytes).2).length ≤ maxPayloadSize w
  · rw [operatorCall_accept w now sendResult r sender bytes h]
    rcases sendResult with _ | e
    · simp
    · cases e
      · simp
      · exact absurd rfl hSend
  · rw [operatorCall_reject w now sendResult r sender bytes h]
    refine ⟨rfl, by simp, by simp, ?_⟩
    intro _ h2
    exact absurd h2 h

/-- C9 (amended), at a sample: the send of the Pong throws a `runtime_error`. -/
theorem receive_rearmed_witness :
    some Failure.runtimeError ≠ some Failure.unclassified ∧
    (PingResponder.operatorCall sampleWire 1000 (some Failure.runtimeError) sampleResponder
        samplePeer samplePing).escaped = none ∧
    (PingResponder.operatorCall sampleWire 1000 (some Failure.runtimeError) sampleResponder
        samplePeer samplePing).events.count IoEvent.receive = 1 ∧
    (PingResponder.operatorCall sampleWire 1000 (some Failure.runtimeError) sampleResponder
        samplePeer samplePing).events.getLast? = some IoEvent.receive :=
  ⟨by decide,
    (receive_rearmed sampleWire 1000 (some Failure.runtimeError) sampleResponder samplePeer
      samplePing (by decide)).1,
    (receive_rearmed sampleWire 1000 (some Failure.runtimeError) sampleResponder samplePeer
      samplePing (by decide)).2.1,
    (receive_rearmed sampleWire 1000 (some Failure.runtimeError) sampleResponder samplePeer
      samplePing (by decide)).2.2.1⟩

/-- C9 as stated fails: the send of the Pong throws an exception that is not a
`runtime_error`. The only handler of the `try` is for `runtime_error`, so the
exception leaves the handler, and `listen()` has not been called. -/
theorem receive_rearmed_counterexample :
    (PingResponder.operatorCall sampleWire 1000 (some Failure.unclassified) sampleResponder
        samplePeer samplePing).escaped = some Failure.unclassified ∧
    (PingResponder.operatorCall sampleWire 1000 (some Failure.unclassified) sampleResponder
        samplePeer samplePing).events.count IoEvent.receive = 0 := by
  decide

end ableton
